import Mathlib

/-
Verification of the functional-paint raster library.

The embedding follows src/index.js (the canvas operations) and the
coordinate/blend utilities of utils.js.  Machine bytes are modelled as Nat
(JS numbers on byte values, always < 256 in well-formed data); buffers are
List Nat.  JS `undefined` resulting from an out-of-range array read is
modelled as 0; no theorem below depends on the value of an out-of-range
read.  Writing past the end of a JS plain array extends it (holes modelled
as 0); writing at a negative index creates a non-index property, invisible
to all indexed reads, modelled as leaving the list unchanged.
-/

/-- Channel index constants, from constants.js (values fixed by the spec's
channel table Red=0, Green=1, Blue=2, Alpha=3 and the byte positions asserted
by the unit tests). -/
def CHANNEL_RED : Nat := 0

def CHANNEL_GREEN : Nat := 1

def CHANNEL_BLUE : Nat := 2

def CHANNEL_ALPHA : Nat := 3

/-- Channel counts, from constants.js. -/
def RGB : Nat := 3

def RGBA : Nat := 4

/-- Modelled from the spec: utils.js getChannelCount / channelCount
(`channelCount(hasAlphaChannel) -> 3 | 4`), whose source file is absent. -/
def getChannelCount (hasAlphaChannel : Bool) : Nat :=
  if hasAlphaChannel then RGBA else RGB

/-- Modelled from the spec: utils.js coordinates2bytePosition, whose source
file is absent: `offset = (y*width + x) * channels(hasAlphaChannel)`.
Coordinates are Int because callers may pass out-of-range or negative
coordinates. -/
def coordinates2bytePosition (width : Nat) (hasAlphaChannel : Bool)
    (x y : Int) : Int :=
  (y * width + x) * getChannelCount hasAlphaChannel

/-- Modelled from the spec: utils.js bytePosition2Coordinates, whose source
file is absent: `pixelIndex = offset / channels`, `x = pixelIndex % width`,
`y = floor(pixelIndex / width)`. -/
def bytePosition2Coordinates (width : Nat) (hasAlphaChannel : Bool)
    (pos : Nat) : Nat × Nat :=
  (pos / getChannelCount hasAlphaChannel % width,
   pos / getChannelCount hasAlphaChannel / width)

/-- Modelled from the spec: utils.js blendAlpha, whose source file is absent:
`result = srcAlpha + destAlpha*(255-srcAlpha)/255`, rounded to nearest,
clamped to [0,255].  Written over a common denominator of 255; adding 127
before the floor division rounds to the nearest integer (no ties occur). -/
def blendAlpha (destAlpha srcAlpha : Nat) : Nat :=
  min 255 ((srcAlpha * 255 + destAlpha * (255 - srcAlpha) + 127) / 255)

/-- Modelled from the spec: utils.js blendChannel, whose source file is
absent: standard source-over compositing of one channel, weighted by the two
alphas and normalized by the composite alpha; 0 when the composite alpha
is 0.  Exact rational form `(sc*sa*255 + dc*da*(255-sa)) / (255*a)` with
round-to-nearest. -/
def blendChannel (destChannel srcChannel destAlpha srcAlpha : Nat) : Nat :=
  let a := blendAlpha destAlpha srcAlpha
  if a = 0 then 0
  else
    min 255 ((srcChannel * srcAlpha * 255 +
      destChannel * destAlpha * (255 - srcAlpha) + 255 * a / 2) / (255 * a))

/-- Modelled from the spec: utils.js blendColor, whose source file is absent:
blendChannel on R,G,B and blendAlpha on A over two 4-channel colors. -/
def blendColor (dest src : List Nat) : List Nat :=
  [blendChannel (dest.getD CHANNEL_RED 0) (src.getD CHANNEL_RED 0)
     (dest.getD CHANNEL_ALPHA 0) (src.getD CHANNEL_ALPHA 0),
   blendChannel (dest.getD CHANNEL_GREEN 0) (src.getD CHANNEL_GREEN 0)
     (dest.getD CHANNEL_ALPHA 0) (src.getD CHANNEL_ALPHA 0),
   blendChannel (dest.getD CHANNEL_BLUE 0) (src.getD CHANNEL_BLUE 0)
     (dest.getD CHANNEL_ALPHA 0) (src.getD CHANNEL_ALPHA 0),
   blendAlpha (dest.getD CHANNEL_ALPHA 0) (src.getD CHANNEL_ALPHA 0)]

/-- index.js imports the blenders under the names mergeColors/mergeAlpha
(utils.js is absent; its exports are named blendColor/blendAlpha in the unit
tests and the spec). -/
def mergeColors : List Nat → List Nat → List Nat := blendColor

/-- See mergeColors. -/
def mergeAlpha : Nat → Nat → Nat := blendAlpha

/-- A JS plain-array write at a Nat index: in range it updates the cell;
past the end it extends the array (intermediate holes, JS undefined,
modelled as 0). -/
def jsSetN (d : List Nat) (i : Nat) (v : Nat) : List Nat :=
  if i < d.length then d.set i v
  else d ++ List.replicate (i - d.length) 0 ++ [v]

/-- A JS plain-array write at a possibly negative index: a negative index
creates a non-index property, invisible to every indexed read, so the
indexed contents are unchanged. -/
def jsSet (d : List Nat) (i : Int) (v : Nat) : List Nat :=
  if i < 0 then d else jsSetN d i.toNat v

/-- A JS array read at a possibly negative index; out-of-range reads give
JS undefined, modelled as 0 (no theorem depends on such a read). -/
def readByte (d : List Nat) (i : Int) : Nat :=
  if i < 0 then 0 else d.getD i.toNat 0

/-- The canvas record of index.js: width, height, alpha flag and the packed
byte buffer. -/
structure Canvas where
  width : Nat
  height : Nat
  hasAlphaChannel : Bool
  data : List Nat
deriving DecidableEq

/-- index.js createCanvas: a zero-filled buffer of width*height*channels. -/
def createCanvas (width height : Nat) (hasAlphaChannel : Bool := true) :
    Canvas :=
  let channels := if hasAlphaChannel then RGBA else RGB
  { width := width
    height := height
    hasAlphaChannel := hasAlphaChannel
    data := List.replicate (width * height * channels) 0 }

/-- index.js createCanvasFromImageBuffer: builds a canvas and replaces its
data with a copy of the supplied buffer.  The source performs no size
validation whatever.  (The JS default height `imageBuffer / (width * 4)`
divides the array object itself and is never used by the library, which
always passes height explicitly; height is therefore explicit here.) -/
def createCanvasFromImageBuffer (imageBuffer : List Nat) (width height : Nat)
    (hasAlphaChannel : Bool := true) : Canvas :=
  let canvas := createCanvas width height hasAlphaChannel
  { canvas with data := imageBuffer }

/-- index.js cloneCanvas. -/
def cloneCanvas (canvas : Canvas) : Canvas :=
  createCanvasFromImageBuffer canvas.data canvas.width canvas.height
    canvas.hasAlphaChannel

/-- index.js isEqualColor: compares only the R, G, B components, with JS
strict equality on possibly-missing elements. -/
def isEqualColor (color1 color2 : List Nat) : Bool :=
  color1[CHANNEL_RED]? == color2[CHANNEL_RED]? &&
  color1[CHANNEL_GREEN]? == color2[CHANNEL_GREEN]? &&
  color1[CHANNEL_BLUE]? == color2[CHANNEL_BLUE]?

/-- index.js getColor: reads R,G,B and, on an alpha canvas, A. -/
def getColor (canvas : Canvas) (x y : Int) : List Nat :=
  let bytePos := coordinates2bytePosition canvas.width canvas.hasAlphaChannel
    x y
  let color := [readByte canvas.data (bytePos + CHANNEL_RED),
                readByte canvas.data (bytePos + CHANNEL_GREEN),
                readByte canvas.data (bytePos + CHANNEL_BLUE)]
  if canvas.hasAlphaChannel then
    color ++ [readByte canvas.data (bytePos + CHANNEL_ALPHA)]
  else color

/-- index.js drawPixel: clones, writes R,G,B; writes A only when
`color[CHANNEL_ALPHA] && canvas.hasAlphaChannel` — JS truthiness, so a
missing alpha (undefined) and an alpha of 0 both skip the write. -/
def drawPixel (canvas : Canvas) (x y : Int) (color : List Nat) : Canvas :=
  let workingCanvas := cloneCanvas canvas
  let bytePos := coordinates2bytePosition canvas.width canvas.hasAlphaChannel
    x y
  let d1 := jsSet (jsSet (jsSet workingCanvas.data
    (bytePos + CHANNEL_RED) (color.getD CHANNEL_RED 0))
    (bytePos + CHANNEL_GREEN) (color.getD CHANNEL_GREEN 0))
    (bytePos + CHANNEL_BLUE) (color.getD CHANNEL_BLUE 0)
  let d2 := if (color.getD CHANNEL_ALPHA 0 != 0) && canvas.hasAlphaChannel
    then jsSet d1 (bytePos + CHANNEL_ALPHA) (color.getD CHANNEL_ALPHA 0)
    else d1
  { workingCanvas with data := d2 }

/-- The Int interval [a, b) traversed by a JS `for (i = a; i < b; i++)`. -/
def intRange (a b : Int) : List Int :=
  (List.range (b - a).toNat).map (fun (k : Nat) => a + (k : Int))

/-- index.js drawRect: clones, then for every i in [x, x+width) and
j in [y, y+height) writes R,G,B and, on an alpha canvas, A (color[3] when
present — even 0 — else 0xff).  There is no bounds check on (i, j). -/
def drawRect (canvas : Canvas) (x y width height : Int) (color : List Nat) :
    Canvas :=
  let workingCanvas := cloneCanvas canvas
  let newData :=
    (intRange x (x + width)).foldl (fun acc i =>
      (intRange y (y + height)).foldl (fun acc2 j =>
        let bytePos := coordinates2bytePosition canvas.width
          canvas.hasAlphaChannel i j
        let acc3 := jsSet (jsSet (jsSet acc2
          (bytePos + CHANNEL_RED) (color.getD CHANNEL_RED 0))
          (bytePos + CHANNEL_GREEN) (color.getD CHANNEL_GREEN 0))
          (bytePos + CHANNEL_BLUE) (color.getD CHANNEL_BLUE 0)
        if canvas.hasAlphaChannel then
          jsSet acc3 (bytePos + CHANNEL_ALPHA)
            ((color[CHANNEL_ALPHA]?).getD 0xff)
        else acc3) acc) workingCanvas.data
  { workingCanvas with data := newData }

/-- Modelled from the spec: utils.js forEachPixel, whose source file is
absent: visits every pixel exactly once in row-major order (y outer, x
inner), yielding (x, y, byteOffset); linearized here by the pixel index
q = y*width + x. -/
def canvasPixels (canvas : Canvas) : List (Nat × Nat × Nat) :=
  (List.range (canvas.height * canvas.width)).map fun q =>
    (q % canvas.width, q / canvas.width,
     (q / canvas.width * canvas.width + q % canvas.width) *
       getChannelCount canvas.hasAlphaChannel)

/-- The mergeColors call of index.js drawCanvas, destination pixel at byte
`db`, source pixel at byte `bytePos`.  Note the source file reads the
source-canvas alpha for this R,G,B blend at `destBytePos + CHANNEL_ALPHA`
(i.e. `db + CHANNEL_ALPHA` here), while the alpha merge two lines later in
the source reads it at `bytePos + CHANNEL_ALPHA`. -/
def drawCanvasMergedPixel (destination source : Canvas) (db bytePos : Nat) :
    List Nat :=
  mergeColors
    [destination.data.getD (db + CHANNEL_RED) 0,
     destination.data.getD (db + CHANNEL_GREEN) 0,
     destination.data.getD (db + CHANNEL_BLUE) 0,
     if destination.hasAlphaChannel then
       destination.data.getD (db + CHANNEL_ALPHA) 0
     else 0xff]
    [source.data.getD (bytePos + CHANNEL_RED) 0,
     source.data.getD (bytePos + CHANNEL_GREEN) 0,
     source.data.getD (bytePos + CHANNEL_BLUE) 0,
     if source.hasAlphaChannel then
       source.data.getD (db + CHANNEL_ALPHA) 0
     else 0xff]

/-- The body of the forEachPixel callback in index.js drawCanvas. -/
def drawCanvasPixel (destination source : Canvas) (offsetX offsetY : Int)
    (acc : List Nat) (x y bytePos : Nat) : List Nat :=
  let destBytePos := coordinates2bytePosition destination.width
    destination.hasAlphaChannel (x + offsetX) (y + offsetY)
  if destBytePos < 0 ∨ (destination.data.length : Int) ≤ destBytePos then
    acc
  else
    let db := destBytePos.toNat
    let merged := drawCanvasMergedPixel destination source db bytePos
    let acc1 := jsSetN (jsSetN (jsSetN acc
      (db + CHANNEL_RED) (merged.getD 0 0))
      (db + CHANNEL_GREEN) (merged.getD 1 0))
      (db + CHANNEL_BLUE) (merged.getD 2 0)
    if destination.hasAlphaChannel && source.hasAlphaChannel then
      jsSetN acc1 (db + CHANNEL_ALPHA)
        (mergeAlpha (destination.data.getD (db + CHANNEL_ALPHA) 0)
          (source.data.getD (bytePos + CHANNEL_ALPHA) 0))
    else acc1

/-- index.js drawCanvas: clones the destination, then composites every
source pixel; the guard `typeof destination.data[destBytePos] ===
'undefined'` skips exactly the offsets outside [0, length). -/
def drawCanvas (destination source : Canvas) (offsetX offsetY : Int) :
    Canvas :=
  let workingCanvas := cloneCanvas destination
  let newData :=
    (canvasPixels source).foldl (fun acc p =>
      drawCanvasPixel destination source offsetX offsetY acc p.1 p.2.1
        p.2.2) workingCanvas.data
  { workingCanvas with data := newData }

/-- index.js replaceColor: clones, then rewrites R,G,B of every pixel whose
color (read from the original canvas) equals the replacee. -/
def replaceColor (canvas : Canvas) (replacee replacer : List Nat) : Canvas :=
  let workingCanvas := cloneCanvas canvas
  let newData :=
    (canvasPixels canvas).foldl (fun acc p =>
      if isEqualColor (getColor canvas p.1 p.2.1) replacee then
        jsSetN (jsSetN (jsSetN acc
          (p.2.2 + CHANNEL_RED) (replacer.getD CHANNEL_RED 0))
          (p.2.2 + CHANNEL_GREEN) (replacer.getD CHANNEL_GREEN 0))
          (p.2.2 + CHANNEL_BLUE) (replacer.getD CHANNEL_BLUE 0)
      else acc) workingCanvas.data
  { workingCanvas with data := newData }

/-- The data-model invariant of the spec: the buffer length equals
width*height*channels. -/
def Canvas.wf (c : Canvas) : Prop :=
  c.data.length = c.width * c.height * getChannelCount c.hasAlphaChannel

/-! Helper machinery for characterizing the per-pixel write loops. -/

/-- Writes the values `vs` at consecutive indices starting at `b`
(all uses are in range, where `jsSetN` coincides with `List.set`). -/
def setSeq (d : List Nat) (b : Nat) (vs : List Nat) : List Nat :=
  match vs with
  | [] => d
  | v :: rest => setSeq (d.set b v) (b + 1) rest

/-- One pixel visit abstracted as a block write: `vals` written at
consecutive byte indices from `base` (empty `vals` = the visit writes
nothing). -/
structure ByteWrite where
  base : Nat
  vals : List Nat
deriving DecidableEq

/-- Applies one block write. -/
def applyWrite (d : List Nat) (w : ByteWrite) : List Nat :=
  setSeq d w.base w.vals

/-- Whether the block write covers byte index `k`. -/
def touches (w : ByteWrite) (k : Nat) : Bool :=
  decide (w.base ≤ k) && decide (k < w.base + w.vals.length)

/-- Disjointness of the byte ranges of two block writes. -/
def disjW (u v : ByteWrite) : Prop :=
  u.base + u.vals.length ≤ v.base ∨ v.base + v.vals.length ≤ u.base

/-! A heap of buffers, making buffer identity observable: each canvas value
holds a reference to its backing buffer.  Every library operation clones the
input canvas (allocating a fresh buffer) and mutates only the clone's
buffer, so the buffer a caller's canvas points to is never written. -/

/-- The store of allocated backing buffers. -/
structure Heap where
  bufs : List (List Nat)
deriving DecidableEq

/-- Reads the buffer behind a reference. -/
def readBuf (h : Heap) (r : Nat) : List Nat :=
  h.bufs.getD r []

/-- Overwrites the buffer behind a reference (in-place mutation). -/
def writeBuf (h : Heap) (r : Nat) (b : List Nat) : Heap :=
  ⟨h.bufs.set r b⟩

/-- Allocates a fresh buffer, returning its reference. -/
def allocBuf (h : Heap) (b : List Nat) : Heap × Nat :=
  (⟨h.bufs ++ [b]⟩, h.bufs.length)

/-- A canvas whose data buffer lives in the heap. -/
structure CanvasRef where
  width : Nat
  height : Nat
  hasAlphaChannel : Bool
  dataRef : Nat
deriving DecidableEq

/-- The canvas value a heap canvas currently denotes. -/
def toCanvas (h : Heap) (c : CanvasRef) : Canvas :=
  ⟨c.width, c.height, c.hasAlphaChannel, readBuf h c.dataRef⟩

/-- cloneCanvas in the heap model: allocates a fresh buffer holding a copy
of the original's bytes (createCanvasFromImageBuffer copies with a spread). -/
def cloneCanvasH (h : Heap) (c : CanvasRef) : Heap × CanvasRef :=
  let p := allocBuf h (readBuf h c.dataRef)
  (p.1, { width := c.width, height := c.height,
          hasAlphaChannel := c.hasAlphaChannel, dataRef := p.2 })

/-- drawPixel in the heap model: clones, then mutates only the clone's
buffer, writing the bytes the flat drawPixel computes. -/
def drawPixelH (h : Heap) (c : CanvasRef) (x y : Int) (color : List Nat) :
    Heap × CanvasRef :=
  let p := cloneCanvasH h c
  (writeBuf p.1 p.2.dataRef (drawPixel (toCanvas h c) x y color).data, p.2)

/-- drawRect in the heap model. -/
def drawRectH (h : Heap) (c : CanvasRef) (x y width height : Int)
    (color : List Nat) : Heap × CanvasRef :=
  let p := cloneCanvasH h c
  (writeBuf p.1 p.2.dataRef
    (drawRect (toCanvas h c) x y width height color).data, p.2)

/-- drawCanvas in the heap model: reads destination and source buffers,
mutates only the destination clone's buffer. -/
def drawCanvasH (h : Heap) (destination source : CanvasRef)
    (offsetX offsetY : Int) : Heap × CanvasRef :=
  let p := cloneCanvasH h destination
  (writeBuf p.1 p.2.dataRef
    (drawCanvas (toCanvas h destination) (toCanvas h source) offsetX
      offsetY).data, p.2)

/-- replaceColor in the heap model. -/
def replaceColorH (h : Heap) (c : CanvasRef) (replacee replacer : List Nat) :
    Heap × CanvasRef :=
  let p := cloneCanvasH h c
  (writeBuf p.1 p.2.dataRef
    (replaceColor (toCanvas h c) replacee replacer).data, p.2)

/-- getColor in the heap model: a pure read; the heap is returned as is. -/
def getColorH (h : Heap) (c : CanvasRef) (x y : Int) : Heap × List Nat :=
  (h, getColor (toCanvas h c) x y)
/-- The block write performed by one replaceColor pixel visit (empty when
the pixel's color does not match the replacee). -/
def rcWrite (canvas : Canvas) (replacee replacer : List Nat)
    (p : Nat × Nat × Nat) : ByteWrite :=
  if isEqualColor (getColor canvas p.1 p.2.1) replacee then
    ⟨p.2.2, [replacer.getD CHANNEL_RED 0, replacer.getD CHANNEL_GREEN 0,
             replacer.getD CHANNEL_BLUE 0]⟩
  else ⟨p.2.2, []⟩

/-- The block write performed by one drawRect pixel visit: R,G,B and, on an
alpha canvas, the alpha byte. -/
def drWrite (canvas : Canvas) (color : List Nat) (q : Int × Int) :
    ByteWrite :=
  ⟨(coordinates2bytePosition canvas.width canvas.hasAlphaChannel q.1
      q.2).toNat,
   [color.getD CHANNEL_RED 0, color.getD CHANNEL_GREEN 0,
    color.getD CHANNEL_BLUE 0] ++
     (if canvas.hasAlphaChannel then [(color[CHANNEL_ALPHA]?).getD 0xff]
      else [])⟩

/-- The coordinate pairs visited by drawRect's nested loops, outer list
first. -/
def prodList (as bs : List Int) : List (Int × Int) :=
  as.flatMap (fun a => bs.map (fun b => (a, b)))

theorem getChannelCount_pos (a : Bool) : 0 < getChannelCount a := by
  cases a <;> simp [getChannelCount, RGB, RGBA]

/-- Claim C4: for every width > 0, every alpha flag, and all coordinates
x in [0,width), y in [0,height), converting (x,y) to a byte position and
back returns (x,y).  (spec-modelled: utils.js is absent from the sources;
both functions are modelled from the spec formulas, which the surviving
unit tests corroborate.) -/
theorem coordinates_bytePosition_roundtrip (width height : Nat)
    (hasAlphaChannel : Bool) (x y : Nat) (hw : 0 < width) (hx : x < width)
    (hy : y < height) :
    bytePosition2Coordinates width hasAlphaChannel
      (coordinates2bytePosition width hasAlphaChannel x y).toNat = (x, y) := by
  have hc : 0 < getChannelCount hasAlphaChannel := getChannelCount_pos _
  have htn : (coordinates2bytePosition width hasAlphaChannel x y).toNat =
      (y * width + x) * getChannelCount hasAlphaChannel := by
    unfold coordinates2bytePosition
    have : ((y : Int) * width + x) * getChannelCount hasAlphaChannel =
        ((y * width + x) * getChannelCount hasAlphaChannel : Nat) := by
      push_cast; ring
    rw [this, Int.toNat_natCast]
  unfold bytePosition2Coordinates
  rw [htn, Nat.mul_div_cancel _ hc]
  have h1 : (y * width + x) % width = x := by
    rw [Nat.mul_comm y width, Nat.mul_add_mod, Nat.mod_eq_of_lt hx]
  have h2 : (y * width + x) / width = y := by
    rw [Nat.mul_comm y width, Nat.mul_add_div hw, Nat.div_eq_of_lt hx,
      Nat.add_zero]
  rw [h1, h2]

/-- Witness for C4, at width 2, height 4, (x,y) = (1,3), matching the byte
position 28 asserted in the unit tests. -/
theorem coordinates_bytePosition_roundtrip_witness :
    bytePosition2Coordinates 2 true
      (coordinates2bytePosition 2 true 1 3).toNat = (1, 3) :=
  coordinates_bytePosition_roundtrip 2 4 true 1 3 (by decide) (by decide)
    (by decide)

/-- Claim C5: blendAlpha(0,0) = 0, and for every x in [0,255],
blendAlpha(x,255) = 255 and blendAlpha(255,x) = 255: the composite alpha
saturates when either operand is fully opaque.  (spec-modelled: utils.js is
absent; blendAlpha is modelled from the spec formula, corroborated by the
surviving unit tests.) -/
theorem blendAlpha_saturation :
    blendAlpha 0 0 = 0 ∧
      ∀ x : Nat, x ≤ 255 → blendAlpha x 255 = 255 ∧ blendAlpha 255 x = 255 := by
  refine ⟨by decide, fun x hx => ⟨?_, ?_⟩⟩
  · unfold blendAlpha
    norm_num
  · unfold blendAlpha
    have h : x * 255 + 255 * (255 - x) + 127 = 65152 := by omega
    rw [h]
    decide

/-- Witness for C5, at x = 7. -/
theorem blendAlpha_saturation_witness :
    blendAlpha 0 0 = 0 ∧ blendAlpha 7 255 = 255 ∧ blendAlpha 255 7 = 255 :=
  ⟨blendAlpha_saturation.1, blendAlpha_saturation.2 7 (by decide)⟩


/-- Claim C1, counter-evidence (code bug): drawCanvas reads the source
alpha for the R,G,B blend at `destBytePos + CHANNEL_ALPHA` instead of the
source pixel's own `bytePos + CHANNEL_ALPHA` (the adjacent alpha merge uses
the correct index).  Destination 1x2 RGBA with pixel (0,1) opaque black;
source 1x2 RGBA whose pixel (0,0) is fully transparent white; offset (0,1).
Compositing source pixel (0,0) over destination pixel (0,1) must, per the
claim, be blendColor [0,0,0,255] [255,255,255,0] = [0,0,0,255] (black);
the code instead picks up alpha 255 from source byte 7 and paints white:
the result is [10,20,30,255, 255,255,255,255]. -/
theorem drawCanvas_wrong_source_alpha_eval :
    (drawCanvas ⟨1, 2, true, [10, 20, 30, 255, 0, 0, 0, 255]⟩
        ⟨1, 2, true, [255, 255, 255, 0, 9, 9, 9, 255]⟩ 0 1).data
      = [10, 20, 30, 255, 255, 255, 255, 255] ∧
    blendColor [0, 0, 0, 255] [255, 255, 255, 0] = [0, 0, 0, 255] := by
  constructor
  · decide
  · decide

/-- Claim C6, counterexample: a 1x1 RGBA canvas with alpha byte 200 and a
supplied color of length 4 whose alpha value is 0.  The claim says the
alpha byte is overwritten (canvas has an alpha channel AND the color has
length 4), i.e. becomes 0; the code tests JS truthiness of color[3], so the
alpha byte keeps its old value 200. -/
theorem drawPixel_zero_alpha_skipped :
    (drawPixel ⟨1, 1, true, [9, 9, 9, 200]⟩ 0 0 [1, 2, 3, 0]).data
        = [1, 2, 3, 200] ∧
      (drawPixel ⟨1, 1, true, [9, 9, 9, 200]⟩ 0 0 [1, 2, 3, 0]).data
        ≠ [1, 2, 3, 0] := by
  constructor
  · decide
  · decide

/-- Claim C8, counterexample: a 3-byte buffer declared as a 5x5 RGBA canvas
(expected size 100).  The claim says the call fails with a ValidationError
and no canvas is produced; createCanvasFromImageBuffer has no size check
and happily returns a canvas wrapping the 3 bytes. -/
theorem createCanvasFromImageBuffer_mismatch_accepted :
    (createCanvasFromImageBuffer [1, 2, 3] 5 5 true).data = [1, 2, 3] ∧
      ([1, 2, 3] : List Nat).length ≠ 5 * 5 * getChannelCount true := by
  constructor
  · rfl
  · decide

/-- Claim C8 as amended: createCanvasFromImageBuffer performs no size
validation at all; for every buffer and declared dimensions it returns the
canvas wrapping (a copy of) the supplied bytes, whether or not
buffer.length = width*height*channels. -/
theorem createCanvasFromImageBuffer_no_validation (imageBuffer : List Nat)
    (width height : Nat) (hasAlphaChannel : Bool) :
    createCanvasFromImageBuffer imageBuffer width height hasAlphaChannel
      = ⟨width, height, hasAlphaChannel, imageBuffer⟩ := rfl

/-- Claim C10: a rectangle of non-positive width or height paints nothing:
drawRect returns a canvas whose data is byte-for-byte the input's. -/
theorem drawRect_empty_rectangle (canvas : Canvas) (x y width height : Int)
    (color : List Nat) (h : width ≤ 0 ∨ height ≤ 0) :
    (drawRect canvas x y width height color).data = canvas.data := by
  have hrange : ∀ a b : Int, b ≤ 0 → intRange a (a + b) = [] := by
    intro a b hb
    unfold intRange
    have : (a + b - a).toNat = 0 := by omega
    rw [this]
    rfl
  have hfix : ∀ (l : List Int) (d : List Nat),
      l.foldl (fun acc _ => acc) d = d := by
    intro l
    induction l with
    | nil => intro d; rfl
    | cons a t ih => intro d; exact ih d
  unfold drawRect
  rcases h with hw | hh
  · rw [hrange x width hw]
    rfl
  · rw [hrange y height hh]
    simp only [List.foldl_nil]
    exact hfix _ _

/-- Witness for C10: an 0-width rectangle on a 1x1 RGB canvas. -/
theorem drawRect_empty_rectangle_witness :
    (drawRect ⟨1, 1, false, [1, 2, 3]⟩ 0 0 0 5 [7, 8, 9]).data = [1, 2, 3] :=
  drawRect_empty_rectangle ⟨1, 1, false, [1, 2, 3]⟩ 0 0 0 5 [7, 8, 9]
    (Or.inl (by decide))

/-! Basic facts about in-range JS writes. -/

theorem jsSetN_of_lt {d : List Nat} {i : Nat} (v : Nat) (h : i < d.length) :
    jsSetN d i v = d.set i v := by
  unfold jsSetN
  rw [if_pos h]

theorem jsSetN_length {d : List Nat} {i : Nat} (v : Nat)
    (h : i < d.length) : (jsSetN d i v).length = d.length := by
  rw [jsSetN_of_lt v h, List.length_set]

theorem jsSetN_getElem?_ne {d : List Nat} {i k : Nat} (v : Nat)
    (h : i < d.length) (hne : i ≠ k) : (jsSetN d i v)[k]? = d[k]? := by
  rw [jsSetN_of_lt v h]
  exact List.getElem?_set_ne hne

theorem jsSetN_getElem?_self {d : List Nat} {i : Nat} (v : Nat)
    (h : i < d.length) : (jsSetN d i v)[i]? = some v := by
  rw [jsSetN_of_lt v h]
  exact List.getElem?_set_self h

/-- An in-buffer destination byte offset is a whole multiple of the channel
count, so the whole channel block up from it fits in the buffer. -/
theorem destBytePos_block_bound (W H : Nat) (a : Bool) (len : Nat)
    (hlen : len = W * H * getChannelCount a) (t : Int)
    (h0 : 0 ≤ t * (getChannelCount a : Int))
    (h1 : t * (getChannelCount a : Int) < (len : Int)) :
    (t * (getChannelCount a : Int)).toNat + getChannelCount a ≤ len := by
  have hch : 0 < getChannelCount a := getChannelCount_pos a
  have hchZ : (0 : Int) < (getChannelCount a : Int) := by exact_mod_cast hch
  have ht : 0 ≤ t := by
    by_contra hneg
    push_neg at hneg
    nlinarith
  have hcast : t * (getChannelCount a : Int) =
      ((t.toNat * getChannelCount a : Nat) : Int) := by
    obtain ⟨n, rfl⟩ := Int.eq_ofNat_of_zero_le ht
    rw [Int.toNat_natCast]
    push_cast
    ring
  have htn : (t * (getChannelCount a : Int)).toNat =
      t.toNat * getChannelCount a := by
    rw [hcast, Int.toNat_natCast]
  rw [htn]
  have h1n : t.toNat * getChannelCount a < len := by
    rw [hcast] at h1
    exact_mod_cast h1
  have hlt : t.toNat < W * H := by
    rw [hlen] at h1n
    exact lt_of_mul_lt_mul_right h1n (Nat.zero_le _)
  calc t.toNat * getChannelCount a + getChannelCount a
      = (t.toNat + 1) * getChannelCount a := by ring
    _ ≤ W * H * getChannelCount a := Nat.mul_le_mul_right _ hlt
    _ = len := hlen.symm


theorem jsSetN_chain3_length (acc : List Nat) (db v0 v1 v2 : Nat)
    (h : db + 3 ≤ acc.length) :
    (jsSetN (jsSetN (jsSetN acc db v0) (db + 1) v1) (db + 2) v2).length
      = acc.length := by
  have h0 : db < acc.length := by omega
  have l1 : (jsSetN acc db v0).length = acc.length := jsSetN_length v0 h0
  have h1 : db + 1 < (jsSetN acc db v0).length := by omega
  have l2 : (jsSetN (jsSetN acc db v0) (db + 1) v1).length = acc.length := by
    rw [jsSetN_length v1 h1, l1]
  have h2 : db + 2 < (jsSetN (jsSetN acc db v0) (db + 1) v1).length := by
    omega
  rw [jsSetN_length v2 h2, l2]

theorem jsSetN_chain3_getElem?_ne (acc : List Nat) (db v0 v1 v2 k : Nat)
    (h : db + 3 ≤ acc.length) (hk : k < db ∨ db + 3 ≤ k) :
    (jsSetN (jsSetN (jsSetN acc db v0) (db + 1) v1) (db + 2) v2)[k]?
      = acc[k]? := by
  have h0 : db < acc.length := by omega
  have l1 : (jsSetN acc db v0).length = acc.length := jsSetN_length v0 h0
  have h1 : db + 1 < (jsSetN acc db v0).length := by omega
  have l2 : (jsSetN (jsSetN acc db v0) (db + 1) v1).length = acc.length := by
    rw [jsSetN_length v1 h1, l1]
  have h2 : db + 2 < (jsSetN (jsSetN acc db v0) (db + 1) v1).length := by
    omega
  rw [jsSetN_getElem?_ne v2 h2 (by omega), jsSetN_getElem?_ne v1 h1 (by omega),
    jsSetN_getElem?_ne v0 h0 (by omega)]

theorem jsSetN_chain3_getElem?_first (acc : List Nat) (db v0 v1 v2 : Nat)
    (h : db + 3 ≤ acc.length) :
    (jsSetN (jsSetN (jsSetN acc db v0) (db + 1) v1) (db + 2) v2)[db]?
      = some v0 := by
  have h0 : db < acc.length := by omega
  have l1 : (jsSetN acc db v0).length = acc.length := jsSetN_length v0 h0
  have h1 : db + 1 < (jsSetN acc db v0).length := by omega
  have l2 : (jsSetN (jsSetN acc db v0) (db + 1) v1).length = acc.length := by
    rw [jsSetN_length v1 h1, l1]
  have h2 : db + 2 < (jsSetN (jsSetN acc db v0) (db + 1) v1).length := by
    omega
  rw [jsSetN_getElem?_ne v2 h2 (by omega), jsSetN_getElem?_ne v1 h1 (by omega),
    jsSetN_getElem?_self v0 h0]

set_option maxHeartbeats 1000000 in
/-- If the guard of drawCanvas does not fire, the whole destination channel
block starting at the computed offset lies inside the destination buffer. -/
theorem drawCanvasPixel_inrange_bound (destination : Canvas)
    (offsetX offsetY : Int) (x y : Nat) (hwf : destination.wf)
    (h : ¬(coordinates2bytePosition destination.width
        destination.hasAlphaChannel (x + offsetX) (y + offsetY) < 0 ∨
      (destination.data.length : Int) ≤ coordinates2bytePosition
        destination.width destination.hasAlphaChannel (x + offsetX)
        (y + offsetY))) :
    (coordinates2bytePosition destination.width destination.hasAlphaChannel
        (x + offsetX) (y + offsetY)).toNat
      + getChannelCount destination.hasAlphaChannel
      ≤ destination.data.length := by
  push_neg at h
  have hdef : coordinates2bytePosition destination.width
      destination.hasAlphaChannel (x + offsetX) (y + offsetY) =
      ((y + offsetY) * destination.width + (x + offsetX)) *
        (getChannelCount destination.hasAlphaChannel : Int) := rfl
  rw [hdef] at h ⊢
  exact destBytePos_block_bound destination.width destination.height
    destination.hasAlphaChannel destination.data.length hwf
    ((↑y + offsetY) * destination.width + (↑x + offsetX)) h.1 h.2

/-- If the computed destination offset is outside the destination buffer,
the drawCanvas pixel step leaves the working data untouched (and raises no
error: the step is a total function). -/
theorem drawCanvasPixel_skip (destination source : Canvas)
    (offsetX offsetY : Int) (acc : List Nat) (x y bytePos : Nat)
    (h : coordinates2bytePosition destination.width
        destination.hasAlphaChannel (x + offsetX) (y + offsetY) < 0 ∨
      (destination.data.length : Int) ≤ coordinates2bytePosition
        destination.width destination.hasAlphaChannel (x + offsetX)
        (y + offsetY)) :
    drawCanvasPixel destination source offsetX offsetY acc x y bytePos
      = acc := by
  unfold drawCanvasPixel
  rw [if_pos h]

theorem jsSetN_chain4_length (acc : List Nat) (db v0 v1 v2 v3 : Nat)
    (h : db + 4 ≤ acc.length) :
    (jsSetN (jsSetN (jsSetN (jsSetN acc db v0) (db + 1) v1) (db + 2) v2)
      (db + 3) v3).length = acc.length := by
  have e3 : (jsSetN (jsSetN (jsSetN acc db v0) (db + 1) v1) (db + 2)
      v2).length = acc.length := jsSetN_chain3_length acc db v0 v1 v2 (by omega)
  have h3 : db + 3 < (jsSetN (jsSetN (jsSetN acc db v0) (db + 1) v1) (db + 2)
      v2).length := by omega
  rw [jsSetN_length v3 h3, e3]

/-- The drawCanvas pixel step never changes the working buffer's length. -/
theorem drawCanvasPixel_length (destination source : Canvas)
    (offsetX offsetY : Int) (acc : List Nat) (x y bytePos : Nat)
    (hwf : destination.wf) (hacc : acc.length = destination.data.length) :
    (drawCanvasPixel destination source offsetX offsetY acc x y
      bytePos).length = acc.length := by
  by_cases h : coordinates2bytePosition destination.width
      destination.hasAlphaChannel (x + offsetX) (y + offsetY) < 0 ∨
    (destination.data.length : Int) ≤ coordinates2bytePosition
      destination.width destination.hasAlphaChannel (x + offsetX)
      (y + offsetY)
  · rw [drawCanvasPixel_skip destination source offsetX offsetY acc x y
      bytePos h]
  · have hbound := drawCanvasPixel_inrange_bound destination offsetX offsetY
      x y hwf h
    have hch3 : 3 ≤ getChannelCount destination.hasAlphaChannel := by
      cases hc : destination.hasAlphaChannel <;>
        simp [getChannelCount, RGB, RGBA]
    simp only [drawCanvasPixel, CHANNEL_RED, CHANNEL_GREEN, CHANNEL_BLUE,
      CHANNEL_ALPHA, Nat.add_zero]
    rw [if_neg h]
    set db := (coordinates2bytePosition destination.width
      destination.hasAlphaChannel (x + offsetX) (y + offsetY)).toNat with hdb
    split
    · rename_i halpha
      have hda : destination.hasAlphaChannel = true :=
        ((Bool.and_eq_true _ _).mp halpha).1
      simp only [hda, getChannelCount, if_true, RGBA] at hbound
      exact jsSetN_chain4_length acc db _ _ _ _ (by omega)
    · exact jsSetN_chain3_length acc db _ _ _ (by omega)

/-- The drawCanvas pixel step never touches indices at or past the
destination buffer length. -/
theorem drawCanvasPixel_getElem_hi (destination source : Canvas)
    (offsetX offsetY : Int) (acc : List Nat) (x y bytePos k : Nat)
    (hwf : destination.wf) (hacc : acc.length = destination.data.length)
    (hk : destination.data.length ≤ k) :
    (drawCanvasPixel destination source offsetX offsetY acc x y
      bytePos)[k]? = acc[k]? := by
  have hlen := drawCanvasPixel_length destination source offsetX offsetY acc
    x y bytePos hwf hacc
  rw [List.getElem?_eq_none (by omega), List.getElem?_eq_none (by omega)]

/-- An in-buffer source pixel is composited, not skipped: its blended red
byte is written at the computed destination offset. -/
theorem drawCanvasPixel_writes (destination source : Canvas)
    (offsetX offsetY : Int) (acc : List Nat) (x y bytePos : Nat)
    (hwf : destination.wf) (hacc : acc.length = destination.data.length)
    (h : ¬(coordinates2bytePosition destination.width
        destination.hasAlphaChannel (x + offsetX) (y + offsetY) < 0 ∨
      (destination.data.length : Int) ≤ coordinates2bytePosition
        destination.width destination.hasAlphaChannel (x + offsetX)
        (y + offsetY))) :
    (drawCanvasPixel destination source offsetX offsetY acc x y
        bytePos)[(coordinates2bytePosition destination.width
          destination.hasAlphaChannel (x + offsetX) (y + offsetY)).toNat]?
      = some ((drawCanvasMergedPixel destination source
          (coordinates2bytePosition destination.width
            destination.hasAlphaChannel (x + offsetX)
            (y + offsetY)).toNat bytePos).getD 0 0) := by
  have hbound := drawCanvasPixel_inrange_bound destination offsetX offsetY
    x y hwf h
  have hch3 : 3 ≤ getChannelCount destination.hasAlphaChannel := by
    cases hc : destination.hasAlphaChannel <;>
      simp [getChannelCount, RGB, RGBA]
  simp only [drawCanvasPixel, CHANNEL_RED, CHANNEL_GREEN, CHANNEL_BLUE,
    CHANNEL_ALPHA, Nat.add_zero]
  rw [if_neg h]
  set db := (coordinates2bytePosition destination.width
    destination.hasAlphaChannel (x + offsetX) (y + offsetY)).toNat with hdb
  split
  · rename_i halpha
    have hda : destination.hasAlphaChannel = true :=
      ((Bool.and_eq_true _ _).mp halpha).1
    simp only [hda, getChannelCount, if_true, RGBA] at hbound
    have e3 : (jsSetN (jsSetN (jsSetN acc db
        ((drawCanvasMergedPixel destination source db bytePos).getD 0 0))
        (db + 1)
        ((drawCanvasMergedPixel destination source db bytePos).getD 1 0))
        (db + 2)
        ((drawCanvasMergedPixel destination source db bytePos).getD 2
          0)).length = acc.length :=
      jsSetN_chain3_length acc db _ _ _ (by omega)
    rw [jsSetN_getElem?_ne _ (by omega) (by omega)]
    exact jsSetN_chain3_getElem?_first acc db _ _ _ (by omega)
  · exact jsSetN_chain3_getElem?_first acc db _ _ _ (by omega)

/-- drawCanvas keeps the destination buffer length. -/
theorem drawCanvas_data_length (destination source : Canvas)
    (offsetX offsetY : Int) (hwf : destination.wf) :
    (drawCanvas destination source offsetX offsetY).data.length
      = destination.data.length := by
  have hfold : ∀ (ps : List (Nat × Nat × Nat)) (acc : List Nat),
      acc.length = destination.data.length →
      (ps.foldl (fun acc p => drawCanvasPixel destination source offsetX
        offsetY acc p.1 p.2.1 p.2.2) acc).length = acc.length := by
    intro ps
    induction ps with
    | nil => intro acc hacc; rfl
    | cons p t ih =>
      intro acc hacc
      have hstep := drawCanvasPixel_length destination source offsetX offsetY
        acc p.1 p.2.1 p.2.2 hwf hacc
      simp only [List.foldl_cons]
      rw [ih _ (by omega), hstep]
  exact hfold (canvasPixels source) destination.data rfl

/-- Claim C9: drawCanvas silently skips exactly the source pixels whose
computed destination byte offset falls outside the destination buffer, and
never writes any byte outside that buffer.  For every destination canvas
(satisfying the data-model size invariant), source, offsets, visited pixel
(x, y, bytePos), working buffer of the destination's length, and index k
past the buffer: (1) if the computed offset is outside [0, length) the
pixel step returns the working buffer unchanged (and, being a total
function, raises nothing); (2) the step never changes the buffer length;
(3) the step never touches an index at or past the buffer length; (4) if
the offset is inside the buffer the pixel is composited: its blended red
byte is written at that offset; (5) the complete drawCanvas keeps the
destination buffer length. -/
theorem drawCanvas_clips_silently (destination source : Canvas)
    (offsetX offsetY : Int) (x y bytePos k : Nat) (acc : List Nat)
    (hwf : destination.wf) (hacc : acc.length = destination.data.length)
    (hk : destination.data.length ≤ k) :
    ((coordinates2bytePosition destination.width destination.hasAlphaChannel
        (x + offsetX) (y + offsetY) < 0 ∨
      (destination.data.length : Int) ≤ coordinates2bytePosition
        destination.width destination.hasAlphaChannel (x + offsetX)
        (y + offsetY)) →
      drawCanvasPixel destination source offsetX offsetY acc x y bytePos
        = acc) ∧
    (drawCanvasPixel destination source offsetX offsetY acc x y
      bytePos).length = acc.length ∧
    (drawCanvasPixel destination source offsetX offsetY acc x y
      bytePos)[k]? = acc[k]? ∧
    (¬(coordinates2bytePosition destination.width
        destination.hasAlphaChannel (x + offsetX) (y + offsetY) < 0 ∨
      (destination.data.length : Int) ≤ coordinates2bytePosition
        destination.width destination.hasAlphaChannel (x + offsetX)
        (y + offsetY)) →
      (drawCanvasPixel destination source offsetX offsetY acc x y
          bytePos)[(coordinates2bytePosition destination.width
            destination.hasAlphaChannel (x + offsetX) (y + offsetY)).toNat]?
        = some ((drawCanvasMergedPixel destination source
            (coordinates2bytePosition destination.width
              destination.hasAlphaChannel (x + offsetX)
              (y + offsetY)).toNat bytePos).getD 0 0)) ∧
    (drawCanvas destination source offsetX offsetY).data.length
      = destination.data.length := by
  refine ⟨fun h => drawCanvasPixel_skip destination source offsetX offsetY
      acc x y bytePos h,
    drawCanvasPixel_length destination source offsetX offsetY acc x y
      bytePos hwf hacc,
    drawCanvasPixel_getElem_hi destination source offsetX offsetY acc x y
      bytePos k hwf hacc hk,
    fun h => drawCanvasPixel_writes destination source offsetX offsetY acc
      x y bytePos hwf hacc h,
    drawCanvas_data_length destination source offsetX offsetY hwf⟩

/-- Witness for C9: a 1x1 RGBA destination and source, offset (0,5); the
computed destination offset 20 is outside the 4-byte buffer, so the pixel
is skipped and the overall result keeps the buffer length. -/
theorem drawCanvas_clips_silently_witness :
    Canvas.wf ⟨1, 1, true, [1, 2, 3, 4]⟩ ∧
    drawCanvasPixel ⟨1, 1, true, [1, 2, 3, 4]⟩ ⟨1, 1, true, [5, 6, 7, 8]⟩
      0 5 [1, 2, 3, 4] 0 0 0 = [1, 2, 3, 4] ∧
    (drawCanvas ⟨1, 1, true, [1, 2, 3, 4]⟩ ⟨1, 1, true, [5, 6, 7, 8]⟩
      0 5).data.length = 4 :=
  ⟨rfl,
   (drawCanvas_clips_silently ⟨1, 1, true, [1, 2, 3, 4]⟩
      ⟨1, 1, true, [5, 6, 7, 8]⟩ 0 5 0 0 0 10 [1, 2, 3, 4] rfl
      (by decide) (by decide)).1 (by decide),
   (drawCanvas_clips_silently ⟨1, 1, true, [1, 2, 3, 4]⟩
      ⟨1, 1, true, [5, 6, 7, 8]⟩ 0 5 0 0 0 10 [1, 2, 3, 4] rfl
      (by decide) (by decide)).2.2.2.2⟩

/-- A JS write at a nonnegative coordinate-computed index is a plain
indexed write. -/
theorem jsSet_coe (d : List Nat) (n v : Nat) :
    jsSet d (n : Int) v = jsSetN d n v := by
  unfold jsSet
  rw [if_neg (by exact not_lt.mpr (Int.natCast_nonneg n)), Int.toNat_natCast]

theorem pixel_index_lt (W H x y : Nat) (hx : x < W) (hy : y < H) :
    y * W + x < W * H := by
  calc y * W + x < y * W + W := by omega
    _ = (y + 1) * W := by ring
    _ ≤ H * W := Nat.mul_le_mul_right W hy
    _ = W * H := Nat.mul_comm H W

/-- The byte position of in-bounds Nat coordinates, as a Nat. -/
theorem coordinates2bytePosition_coe (W : Nat) (a : Bool) (x y : Nat) :
    coordinates2bytePosition W a (x : Int) (y : Int)
      = ((y * W + x) * getChannelCount a : Nat) := by
  unfold coordinates2bytePosition
  push_cast
  ring

/-- Claim C6 as amended: on an alpha-channel canvas, drawPixel overwrites
the alpha byte of an in-bounds pixel if and only if the supplied color has
a nonzero alpha value at index 3 (JS truthiness: a missing alpha and an
alpha equal to 0 both leave the byte unchanged); in every other case the
alpha byte equals the input canvas's. -/
theorem drawPixel_alpha_byte (canvas : Canvas) (x y : Nat) (color : List Nat)
    (hwf : canvas.wf) (ha : canvas.hasAlphaChannel = true)
    (hx : x < canvas.width) (hy : y < canvas.height) :
    (drawPixel canvas x y color).data[(y * canvas.width + x) *
        getChannelCount canvas.hasAlphaChannel + CHANNEL_ALPHA]?
      = if color.getD CHANNEL_ALPHA 0 ≠ 0 then
          some (color.getD CHANNEL_ALPHA 0)
        else canvas.data[(y * canvas.width + x) *
          getChannelCount canvas.hasAlphaChannel + CHANNEL_ALPHA]? := by
  have hch : getChannelCount canvas.hasAlphaChannel = 4 := by
    rw [ha]; rfl
  have hq : y * canvas.width + x < canvas.width * canvas.height :=
    pixel_index_lt canvas.width canvas.height x y hx hy
  have hblen : (y * canvas.width + x) * getChannelCount
      canvas.hasAlphaChannel + 4 ≤ canvas.data.length := by
    rw [hwf, hch]
    have h1 : (y * canvas.width + x + 1) * 4
        ≤ canvas.width * canvas.height * 4 := Nat.mul_le_mul_right 4 hq
    omega
  simp only [drawPixel, coordinates2bytePosition_coe, ← Nat.cast_add,
    jsSet_coe, CHANNEL_RED, CHANNEL_GREEN, CHANNEL_BLUE, CHANNEL_ALPHA,
    Nat.add_zero]
  set B := (y * canvas.width + x) * getChannelCount canvas.hasAlphaChannel
    with hB
  have hc : (cloneCanvas canvas).data = canvas.data := rfl
  rw [hc]
  by_cases hcol : color.getD 3 0 = 0
  · have hcond : (color.getD 3 0 != 0 && canvas.hasAlphaChannel) = false := by
      rw [hcol]
      rfl
    rw [if_neg (by rw [hcond]; exact Bool.false_ne_true), if_neg (by omega)]
    exact jsSetN_chain3_getElem?_ne canvas.data B _ _ _ (B + 3)
      (by omega) (by omega)
  · have hcond : (color.getD 3 0 != 0 && canvas.hasAlphaChannel) = true := by
      rw [ha, Bool.and_true, bne_iff_ne]
      exact hcol
    rw [if_pos hcond, if_pos hcol]
    have e3 : (jsSetN (jsSetN (jsSetN canvas.data B (color.getD 0 0)) (B + 1)
        (color.getD 1 0)) (B + 2) (color.getD 2 0)).length
        = canvas.data.length :=
      jsSetN_chain3_length canvas.data B _ _ _ (by omega)
    exact jsSetN_getElem?_self _ (by omega)

/-- Witness for C6's amended theorem: 1x1 RGBA canvas, color [1,2,3,77]. -/
theorem drawPixel_alpha_byte_witness :
    (drawPixel ⟨1, 1, true, [9, 9, 9, 200]⟩ 0 0 [1, 2, 3, 77]).data[(0 * 1
        + 0) * getChannelCount true + CHANNEL_ALPHA]?
      = if [1, 2, 3, 77].getD CHANNEL_ALPHA 0 ≠ 0 then
          some ([1, 2, 3, 77].getD CHANNEL_ALPHA 0)
        else ([9, 9, 9, 200] : List Nat)[(0 * 1 + 0) * getChannelCount true
          + CHANNEL_ALPHA]? :=
  drawPixel_alpha_byte ⟨1, 1, true, [9, 9, 9, 200]⟩ 0 0 [1, 2, 3, 77] rfl
    rfl (by decide) (by decide)

/-! Characterization of folds of disjoint block writes. -/

theorem setSeq_length (vs : List Nat) (d : List Nat) (b : Nat) :
    (setSeq d b vs).length = d.length := by
  induction vs generalizing d b with
  | nil => rfl
  | cons v rest ih =>
    show (setSeq (d.set b v) (b + 1) rest).length = d.length
    rw [ih, List.length_set]

theorem setSeq_getElem?_lt (vs : List Nat) (d : List Nat) (b k : Nat)
    (hk : k < b) : (setSeq d b vs)[k]? = d[k]? := by
  induction vs generalizing d b with
  | nil => rfl
  | cons v rest ih =>
    show (setSeq (d.set b v) (b + 1) rest)[k]? = d[k]?
    rw [ih (d.set b v) (b + 1) (by omega), List.getElem?_set_ne (by omega)]

theorem setSeq_getElem?_ge (vs : List Nat) (d : List Nat) (b k : Nat)
    (hk : b + vs.length ≤ k) : (setSeq d b vs)[k]? = d[k]? := by
  induction vs generalizing d b with
  | nil => rfl
  | cons v rest ih =>
    show (setSeq (d.set b v) (b + 1) rest)[k]? = d[k]?
    have hk2 : b + 1 + rest.length ≤ k := by simp at hk; omega
    rw [ih (d.set b v) (b + 1) hk2, List.getElem?_set_ne (by omega)]

theorem setSeq_getElem?_in (vs : List Nat) (d : List Nat) (b k : Nat)
    (hbk : b ≤ k) (hk : k < b + vs.length) (hlen : b + vs.length ≤ d.length) :
    (setSeq d b vs)[k]? = vs[k - b]? := by
  induction vs generalizing d b with
  | nil => simp at hk; omega
  | cons v rest ih =>
    show (setSeq (d.set b v) (b + 1) rest)[k]? = (v :: rest)[k - b]?
    by_cases hb : k = b
    · subst hb
      rw [setSeq_getElem?_lt rest _ _ _ (by omega),
        List.getElem?_set_self (by simp at hlen ⊢; omega)]
      simp
    · have h1 : b + 1 ≤ k := by omega
      have h2 : k < b + 1 + rest.length := by simp at hk; omega
      have h3 : b + 1 + rest.length ≤ (d.set b v).length := by
        rw [List.length_set]
        simp at hlen
        omega
      rw [ih (d.set b v) (b + 1) h1 h2 h3]
      have h4 : k - b = (k - (b + 1)) + 1 := by omega
      rw [h4, List.getElem?_cons_succ]

theorem applyWrite_length (d : List Nat) (w : ByteWrite) :
    (applyWrite d w).length = d.length := setSeq_length w.vals d w.base

theorem applyWrite_untouched (d : List Nat) (w : ByteWrite) (k : Nat)
    (h : touches w k = false) : (applyWrite d w)[k]? = d[k]? := by
  have h2 : ¬(w.base ≤ k ∧ k < w.base + w.vals.length) := by
    simpa [touches] using h
  rcases Decidable.not_and_iff_or_not.mp h2 with h3 | h3
  · exact setSeq_getElem?_lt w.vals d w.base k (by omega)
  · exact setSeq_getElem?_ge w.vals d w.base k (by omega)

theorem touches_of_disjW (u v : ByteWrite) (k : Nat) (hd : disjW u v)
    (hu : touches u k = true) : touches v k = false := by
  simp only [touches, Bool.and_eq_true, decide_eq_true_eq] at hu
  simp only [touches, Bool.and_eq_false_iff, decide_eq_false_iff_not]
  rcases hd with h | h
  · omega
  · omega

theorem foldl_applyWrite_untouched (ws : List ByteWrite) (d : List Nat)
    (k : Nat) (h : ∀ w ∈ ws, touches w k = false) :
    (ws.foldl applyWrite d)[k]? = d[k]? := by
  induction ws generalizing d with
  | nil => rfl
  | cons w t ih =>
    simp only [List.foldl_cons]
    rw [ih _ (fun u hu => h u (List.mem_cons_of_mem w hu)),
      applyWrite_untouched d w k (h w (List.mem_cons_self w t))]

theorem foldl_applyWrite_getElem? (ws : List ByteWrite) (d : List Nat)
    (k : Nat) (hd : ∀ w ∈ ws, w.base + w.vals.length ≤ d.length)
    (hp : ws.Pairwise disjW) :
    (ws.foldl applyWrite d)[k]? =
      match ws.find? (fun w => touches w k) with
      | some w => w.vals[k - w.base]?
      | none => d[k]? := by
  induction ws generalizing d with
  | nil => rfl
  | cons w t ih =>
    simp only [List.foldl_cons]
    rcases List.pairwise_cons.mp hp with ⟨hw, hpt⟩
    cases htw : touches w k
    · rw [List.find?_cons_of_neg _ (by simp [htw])]
      have hd2 : ∀ u ∈ t, u.base + u.vals.length ≤ (applyWrite d w).length := by
        intro u hu
        rw [applyWrite_length]
        exact hd u (List.mem_cons_of_mem w hu)
      rw [ih (applyWrite d w) hd2 hpt]
      cases hfind : t.find? (fun u => touches u k)
      · simp only [hfind]
        exact applyWrite_untouched d w k htw
      · simp only [hfind]
    · rw [List.find?_cons_of_pos _ (by simp [htw])]
      have htail : ∀ u ∈ t, touches u k = false := fun u hu =>
        touches_of_disjW w u k (hw u hu) htw
      rw [foldl_applyWrite_untouched t _ k htail]
      have hin := htw
      simp only [touches, Bool.and_eq_true, decide_eq_true_eq] at hin
      exact setSeq_getElem?_in w.vals d w.base k hin.1 hin.2
        (hd w (List.mem_cons_self w t))

theorem find?_map_unique {α β : Type} [DecidableEq α] (l : List α)
    (p : β → Bool) (g : α → β) (a0 : α)
    (h : ∀ a ∈ l, p (g a) = true → a = a0) :
    (l.map g).find? p
      = if a0 ∈ l ∧ p (g a0) = true then some (g a0) else none := by
  induction l with
  | nil => simp
  | cons a t ih =>
    simp only [List.map_cons]
    cases hpa : p (g a)
    · rw [List.find?_cons_of_neg _ (by simp [hpa])]
      rw [ih (fun b hb hpb => h b (List.mem_cons_of_mem a hb) hpb)]
      by_cases ha0 : a0 = a
      · subst ha0
        rw [if_neg (by simp [hpa]), if_neg (by simp [hpa])]
      · by_cases hmem : a0 ∈ t
        · simp [hmem, ha0]
        · rw [if_neg (by simp [hmem]), if_neg (by simp [hmem, ha0])]
    · have ha := h a (List.mem_cons_self a t) hpa
      subst ha
      rw [List.find?_cons_of_pos _ (by simp [hpa])]
      rw [if_pos ⟨List.mem_cons_self a t, hpa⟩]

/-- Two channel blocks overlap in a byte only if they are the same pixel. -/
theorem block_unique (ch q q0 r : Nat) (hch : 3 ≤ ch)
    (h1 : q * ch ≤ q0 * ch + r) (h2 : q0 * ch + r < q * ch + 3)
    (hr : r < 3) : q = q0 := by
  rcases Nat.lt_trichotomy q q0 with hlt | heq | hgt
  · have hm : (q + 1) * ch ≤ q0 * ch := Nat.mul_le_mul_right ch (by omega)
    rw [Nat.add_mul] at hm
    have : q * ch + 3 ≤ q0 * ch := by omega
    omega
  · exact heq
  · have hm : (q0 + 1) * ch ≤ q * ch := Nat.mul_le_mul_right ch (by omega)
    rw [Nat.add_mul] at hm
    omega

/-- A byte beyond the first three channels of its own pixel block (the
alpha byte) is covered by no 3-byte R,G,B block. -/
theorem block_untouched (ch q q0 r : Nat) (hch : 3 ≤ ch) (hrch : r < ch)
    (hr3 : 3 ≤ r) (h1 : q * ch ≤ q0 * ch + r) (h2 : q0 * ch + r < q * ch + 3) :
    False := by
  rcases Nat.lt_trichotomy q q0 with hlt | heq | hgt
  · have hm : (q + 1) * ch ≤ q0 * ch := Nat.mul_le_mul_right ch (by omega)
    rw [Nat.add_mul] at hm
    omega
  · subst heq
    omega
  · have hm : (q0 + 1) * ch ≤ q * ch := Nat.mul_le_mul_right ch (by omega)
    rw [Nat.add_mul] at hm
    omega

theorem rcWrite_base (canvas : Canvas) (A B : List Nat)
    (p : Nat × Nat × Nat) : (rcWrite canvas A B p).base = p.2.2 := by
  unfold rcWrite
  split <;> rfl

theorem rcWrite_vals_length (canvas : Canvas) (A B : List Nat)
    (p : Nat × Nat × Nat) : (rcWrite canvas A B p).vals.length ≤ 3 := by
  unfold rcWrite
  split <;> simp

theorem touches_rcWrite_iff (canvas : Canvas) (A B : List Nat)
    (p : Nat × Nat × Nat) (k : Nat) :
    touches (rcWrite canvas A B p) k = true ↔
      (isEqualColor (getColor canvas p.1 p.2.1) A = true ∧ p.2.2 ≤ k ∧
        k < p.2.2 + 3) := by
  unfold rcWrite touches
  by_cases hcond : isEqualColor (getColor canvas p.1 p.2.1) A = true
  · rw [if_pos hcond]
    simp [hcond]
  · rw [if_neg hcond]
    simp only [List.length_nil, Nat.add_zero, Bool.and_eq_true,
      decide_eq_true_eq]
    constructor
    · intro hcontra
      omega
    · intro hcontra
      exact absurd hcontra.1 hcond

theorem rcStep_eq (canvas : Canvas) (A B : List Nat) (p : Nat × Nat × Nat)
    (d : List Nat) (h : p.2.2 + 3 ≤ d.length) :
    (if isEqualColor (getColor canvas p.1 p.2.1) A then
      jsSetN (jsSetN (jsSetN d
        (p.2.2 + CHANNEL_RED) (B.getD CHANNEL_RED 0))
        (p.2.2 + CHANNEL_GREEN) (B.getD CHANNEL_GREEN 0))
        (p.2.2 + CHANNEL_BLUE) (B.getD CHANNEL_BLUE 0)
    else d) = applyWrite d (rcWrite canvas A B p) := by
  by_cases hcond : isEqualColor (getColor canvas p.1 p.2.1) A = true
  · rw [if_pos hcond]
    unfold rcWrite
    rw [if_pos hcond]
    unfold applyWrite
    simp only [CHANNEL_RED, CHANNEL_GREEN, CHANNEL_BLUE, Nat.add_zero]
    show _ = ((d.set p.2.2 (B.getD 0 0)).set (p.2.2 + 1)
      (B.getD 1 0)).set (p.2.2 + 2) (B.getD 2 0)
    have h0 : p.2.2 < d.length := by omega
    have h1 : p.2.2 + 1 < (d.set p.2.2 (B.getD 0 0)).length := by
      rw [List.length_set]; omega
    have h2 : p.2.2 + 2 < ((d.set p.2.2 (B.getD 0 0)).set (p.2.2 + 1)
        (B.getD 1 0)).length := by
      rw [List.length_set, List.length_set]; omega
    rw [jsSetN_of_lt _ h0, jsSetN_of_lt _ h1, jsSetN_of_lt _ h2]
  · rw [if_neg hcond]
    unfold rcWrite
    rw [if_neg hcond]
    rfl

theorem replaceColor_foldl_eq (canvas : Canvas) (A B : List Nat) :
    ∀ (ps : List (Nat × Nat × Nat)) (d : List Nat),
      (∀ p ∈ ps, p.2.2 + 3 ≤ d.length) →
      ps.foldl (fun acc p =>
        if isEqualColor (getColor canvas p.1 p.2.1) A then
          jsSetN (jsSetN (jsSetN acc
            (p.2.2 + CHANNEL_RED) (B.getD CHANNEL_RED 0))
            (p.2.2 + CHANNEL_GREEN) (B.getD CHANNEL_GREEN 0))
            (p.2.2 + CHANNEL_BLUE) (B.getD CHANNEL_BLUE 0)
        else acc) d
      = (ps.map (rcWrite canvas A B)).foldl applyWrite d := by
  intro ps
  induction ps with
  | nil => intro d hd; rfl
  | cons p t ih =>
    intro d hd
    simp only [List.foldl_cons, List.map_cons]
    rw [rcStep_eq canvas A B p d (hd p (List.mem_cons_self p t))]
    apply ih
    intro u hu
    rw [applyWrite_length]
    exact hd u (List.mem_cons_of_mem p hu)

theorem canvasPixels_bp (c : Canvas) (q : Nat) :
    (q / c.width * c.width + q % c.width) * getChannelCount
      c.hasAlphaChannel = q * getChannelCount c.hasAlphaChannel := by
  rw [Nat.div_add_mod']

theorem getChannelCount_ge3 (a : Bool) : 3 ≤ getChannelCount a := by
  cases a <;> simp [getChannelCount, RGB, RGBA]

theorem mem_canvasPixels_bound (c : Canvas) (hwf : c.wf) (p : Nat × Nat × Nat)
    (hp : p ∈ canvasPixels c) :
    p.2.2 + getChannelCount c.hasAlphaChannel ≤ c.data.length := by
  unfold canvasPixels at hp
  rcases List.mem_map.mp hp with ⟨q, hq, rfl⟩
  rw [List.mem_range] at hq
  simp only [canvasPixels_bp]
  have h1 : (q + 1) * getChannelCount c.hasAlphaChannel
      ≤ c.height * c.width * getChannelCount c.hasAlphaChannel :=
    Nat.mul_le_mul_right _ (by omega)
  rw [Nat.add_mul, Nat.one_mul] at h1
  rw [hwf, Nat.mul_comm c.width c.height]
  exact h1

/-- Byte-level characterization of replaceColor on a well-formed canvas:
byte r of pixel q0 becomes the replacer's channel r when the pixel matched
the replacee and r is one of R,G,B; every other byte keeps its value. -/
theorem replaceColor_data_getElem? (canvas : Canvas) (A B : List Nat)
    (hwf : canvas.wf) (q0 r : Nat)
    (hq0 : q0 < canvas.height * canvas.width)
    (hr : r < getChannelCount canvas.hasAlphaChannel) :
    (replaceColor canvas A B).data[q0 * getChannelCount
        canvas.hasAlphaChannel + r]? =
      if r < 3 ∧ isEqualColor (getColor canvas (↑(q0 % canvas.width))
          (↑(q0 / canvas.width))) A = true then
        [B.getD CHANNEL_RED 0, B.getD CHANNEL_GREEN 0,
          B.getD CHANNEL_BLUE 0][r]?
      else canvas.data[q0 * getChannelCount canvas.hasAlphaChannel + r]? := by
  have hch3 := getChannelCount_ge3 canvas.hasAlphaChannel
  have hdata : (replaceColor canvas A B).data
      = ((canvasPixels canvas).map (rcWrite canvas A B)).foldl applyWrite
        canvas.data := by
    unfold replaceColor
    exact replaceColor_foldl_eq canvas A B (canvasPixels canvas) canvas.data
      (fun p hp => by
        have := mem_canvasPixels_bound canvas hwf p hp
        omega)
  rw [hdata]
  rw [foldl_applyWrite_getElem? _ canvas.data _
    (fun w hw => by
      rcases List.mem_map.mp hw with ⟨p, hp, rfl⟩
      have h1 := mem_canvasPixels_bound canvas hwf p hp
      have h2 := rcWrite_vals_length canvas A B p
      rw [rcWrite_base]
      omega)
    (by
      unfold canvasPixels
      rw [List.map_map]
      rw [List.pairwise_map]
      apply (List.pairwise_lt_range _).imp
      intro q q' hlt
      unfold disjW
      left
      simp only [Function.comp_apply]
      have hb : (rcWrite canvas A B (q % canvas.width, q / canvas.width,
          (q / canvas.width * canvas.width + q % canvas.width) *
            getChannelCount canvas.hasAlphaChannel)).base
          = q * getChannelCount canvas.hasAlphaChannel := by
        rw [rcWrite_base]
        exact canvasPixels_bp canvas q
      have hb' : (rcWrite canvas A B (q' % canvas.width, q' / canvas.width,
          (q' / canvas.width * canvas.width + q' % canvas.width) *
            getChannelCount canvas.hasAlphaChannel)).base
          = q' * getChannelCount canvas.hasAlphaChannel := by
        rw [rcWrite_base]
        exact canvasPixels_bp canvas q'
      rw [hb, hb']
      have hv := rcWrite_vals_length canvas A B (q % canvas.width,
        q / canvas.width, (q / canvas.width * canvas.width +
          q % canvas.width) * getChannelCount canvas.hasAlphaChannel)
      have hm : (q + 1) * getChannelCount canvas.hasAlphaChannel
          ≤ q' * getChannelCount canvas.hasAlphaChannel :=
        Nat.mul_le_mul_right _ (by omega)
      rw [Nat.add_mul, Nat.one_mul] at hm
      omega)]
  simp only [canvasPixels]
  rw [List.map_map]
  have hprem : ∀ q ∈ List.range (canvas.height * canvas.width),
      ((fun w => touches w (q0 * getChannelCount canvas.hasAlphaChannel + r))
        ((rcWrite canvas A B ∘ fun q => (q % canvas.width, q / canvas.width,
          (q / canvas.width * canvas.width + q % canvas.width) *
            getChannelCount canvas.hasAlphaChannel)) q)) = true → q = q0 := by
    intro q hq htq
    simp only [Function.comp_apply] at htq
    have htq2 := (touches_rcWrite_iff canvas A B _ _).mp htq
    simp only [canvasPixels_bp] at htq2
    rcases htq2 with ⟨hcond, hle, hlt⟩
    by_cases hr3 : r < 3
    · exact block_unique (getChannelCount canvas.hasAlphaChannel) q q0 r
        hch3 hle hlt hr3
    · exact absurd (block_untouched (getChannelCount canvas.hasAlphaChannel)
        q q0 r hch3 hr (by omega) hle hlt) (by simp)
  rw [find?_map_unique (List.range (canvas.height * canvas.width)) _ _ q0
    hprem]
  simp only [Function.comp_apply]
  by_cases hcase : r < 3 ∧ isEqualColor (getColor canvas
      (↑(q0 % canvas.width)) (↑(q0 / canvas.width))) A = true
  · rw [if_pos ⟨List.mem_range.mpr hq0, by
      rw [touches_rcWrite_iff]
      refine ⟨hcase.2, ?_, ?_⟩
      · simp only [canvasPixels_bp]
        omega
      · simp only [canvasPixels_bp]
        omega⟩]
    rw [if_pos hcase]
    show (rcWrite canvas A B _).vals[q0 * getChannelCount
      canvas.hasAlphaChannel + r - (rcWrite canvas A B _).base]? = _
    rw [rcWrite_base]
    unfold rcWrite
    rw [if_pos hcase.2]
    simp only [canvasPixels_bp]
    have hsub : q0 * getChannelCount canvas.hasAlphaChannel + r
        - q0 * getChannelCount canvas.hasAlphaChannel = r := by omega
    rw [hsub]
  · rw [if_neg (by
      intro hcontra
      rcases hcontra with ⟨hmem, htq⟩
      have htq2 := (touches_rcWrite_iff canvas A B _ _).mp htq
      simp only [canvasPixels_bp] at htq2
      exact hcase ⟨by omega, htq2.1⟩)]
    rw [if_neg hcase]

theorem foldl_applyWrite_length (ws : List ByteWrite) (d : List Nat) :
    (ws.foldl applyWrite d).length = d.length := by
  induction ws generalizing d with
  | nil => rfl
  | cons w t ih =>
    simp only [List.foldl_cons]
    rw [ih, applyWrite_length]

theorem replaceColor_width (c : Canvas) (A B : List Nat) :
    (replaceColor c A B).width = c.width := rfl

theorem replaceColor_height (c : Canvas) (A B : List Nat) :
    (replaceColor c A B).height = c.height := rfl

theorem replaceColor_hasAlphaChannel (c : Canvas) (A B : List Nat) :
    (replaceColor c A B).hasAlphaChannel = c.hasAlphaChannel := rfl

theorem replaceColor_data_length (c : Canvas) (A B : List Nat)
    (hwf : c.wf) : (replaceColor c A B).data.length = c.data.length := by
  have hdata : (replaceColor c A B).data
      = ((canvasPixels c).map (rcWrite c A B)).foldl applyWrite c.data := by
    unfold replaceColor
    exact replaceColor_foldl_eq c A B (canvasPixels c) c.data
      (fun p hp => by
        have := mem_canvasPixels_bound c hwf p hp
        have := getChannelCount_ge3 c.hasAlphaChannel
        omega)
  rw [hdata, foldl_applyWrite_length]

theorem replaceColor_wf (c : Canvas) (A B : List Nat) (hwf : c.wf) :
    (replaceColor c A B).wf := by
  unfold Canvas.wf
  rw [replaceColor_data_length c A B hwf, replaceColor_width,
    replaceColor_height, replaceColor_hasAlphaChannel]
  exact hwf

/-- A JS read at a nonnegative coordinate-computed index is a plain
indexed read. -/
theorem readByte_coe (d : List Nat) (n : Nat) :
    readByte d (n : Int) = d.getD n 0 := by
  unfold readByte
  rw [if_neg (by exact not_lt.mpr (Int.natCast_nonneg n)), Int.toNat_natCast]

/-- getColor at in-bounds Nat coordinates, spelled over Nat byte indices. -/
theorem getColor_coe (canvas : Canvas) (x y : Nat) :
    getColor canvas (x : Int) (y : Int) =
      [canvas.data.getD ((y * canvas.width + x) * getChannelCount
          canvas.hasAlphaChannel + CHANNEL_RED) 0,
       canvas.data.getD ((y * canvas.width + x) * getChannelCount
          canvas.hasAlphaChannel + CHANNEL_GREEN) 0,
       canvas.data.getD ((y * canvas.width + x) * getChannelCount
          canvas.hasAlphaChannel + CHANNEL_BLUE) 0] ++
      (if canvas.hasAlphaChannel then
        [canvas.data.getD ((y * canvas.width + x) * getChannelCount
          canvas.hasAlphaChannel + CHANNEL_ALPHA) 0]
      else []) := by
  simp only [getColor, coordinates2bytePosition_coe, ← Nat.cast_add,
    readByte_coe]
  split
  · rfl
  · simp

/-- Pixel-level characterization of replaceColor: a matching pixel reads
back as the replacer's R,G,B with its old alpha; any other pixel reads back
unchanged. -/
theorem replaceColor_getColor (canvas : Canvas) (A B : List Nat)
    (hwf : canvas.wf) (x y : Nat) (hx : x < canvas.width)
    (hy : y < canvas.height) :
    getColor (replaceColor canvas A B) (x : Int) (y : Int) =
      if isEqualColor (getColor canvas (x : Int) (y : Int)) A = true then
        [B.getD CHANNEL_RED 0, B.getD CHANNEL_GREEN 0, B.getD CHANNEL_BLUE 0]
          ++ (if canvas.hasAlphaChannel then
              [canvas.data.getD ((y * canvas.width + x) * getChannelCount
                canvas.hasAlphaChannel + CHANNEL_ALPHA) 0]
            else [])
      else getColor canvas (x : Int) (y : Int) := by
  have hch3 := getChannelCount_ge3 canvas.hasAlphaChannel
  have hq0 : y * canvas.width + x < canvas.height * canvas.width := by
    have h := pixel_index_lt canvas.width canvas.height x y hx hy
    rw [Nat.mul_comm canvas.height canvas.width]
    exact h
  have hqx : (y * canvas.width + x) % canvas.width = x := by
    rw [Nat.mul_comm y canvas.width, Nat.mul_add_mod, Nat.mod_eq_of_lt hx]
  have hqy : (y * canvas.width + x) / canvas.width = y := by
    rw [Nat.mul_comm y canvas.width, Nat.mul_add_div (by omega),
      Nat.div_eq_of_lt hx, Nat.add_zero]
  rw [getColor_coe (replaceColor canvas A B) x y, getColor_coe canvas x y]
  simp only [replaceColor_width, replaceColor_hasAlphaChannel]
  simp only [List.getD_eq_getElem?_getD]
  rw [replaceColor_data_getElem? canvas A B hwf (y * canvas.width + x)
      CHANNEL_RED hq0 (by unfold CHANNEL_RED; omega),
    replaceColor_data_getElem? canvas A B hwf (y * canvas.width + x)
      CHANNEL_GREEN hq0 (by unfold CHANNEL_GREEN; omega),
    replaceColor_data_getElem? canvas A B hwf (y * canvas.width + x)
      CHANNEL_BLUE hq0 (by unfold CHANNEL_BLUE; omega)]
  simp only [hqx, hqy]
  by_cases hA : canvas.hasAlphaChannel = true
  · have hch4 : CHANNEL_ALPHA < getChannelCount canvas.hasAlphaChannel := by
      rw [hA]
      decide
    rw [replaceColor_data_getElem? canvas A B hwf (y * canvas.width + x)
      CHANNEL_ALPHA hq0 hch4]
    simp only [hqx, hqy, hA, if_true]
    by_cases hc : isEqualColor (getColor canvas (x : Int) (y : Int)) A = true
    · have hc2 := hc
      rw [getColor_coe canvas x y] at hc2
      simp [List.getD_eq_getElem?_getD, hA, CHANNEL_RED, CHANNEL_GREEN,
        CHANNEL_BLUE, CHANNEL_ALPHA] at hc2
      simp [hc, hc2, CHANNEL_RED, CHANNEL_GREEN, CHANNEL_BLUE, CHANNEL_ALPHA]
    · have hc2 := hc
      rw [getColor_coe canvas x y] at hc2
      simp [List.getD_eq_getElem?_getD, hA, CHANNEL_RED, CHANNEL_GREEN,
        CHANNEL_BLUE, CHANNEL_ALPHA] at hc2
      simp [hc, hc2, CHANNEL_RED, CHANNEL_GREEN, CHANNEL_BLUE, CHANNEL_ALPHA]
  · have hA2 : canvas.hasAlphaChannel = false := by
      cases hcc : canvas.hasAlphaChannel
      · rfl
      · exact absurd hcc hA
    simp only [hA2, Bool.false_eq_true, if_false]
    by_cases hc : isEqualColor (getColor canvas (x : Int) (y : Int)) A = true
    · have hc2 := hc
      rw [getColor_coe canvas x y] at hc2
      simp [List.getD_eq_getElem?_getD, hA2, CHANNEL_RED, CHANNEL_GREEN,
        CHANNEL_BLUE] at hc2
      simp [hc, hc2, CHANNEL_RED, CHANNEL_GREEN, CHANNEL_BLUE]
    · have hc2 := hc
      rw [getColor_coe canvas x y] at hc2
      simp [List.getD_eq_getElem?_getD, hA2, CHANNEL_RED, CHANNEL_GREEN,
        CHANNEL_BLUE] at hc2
      simp [hc, hc2, CHANNEL_RED, CHANNEL_GREEN, CHANNEL_BLUE]

theorem isEqualColor_iff (a b : List Nat) :
    isEqualColor a b = true ↔
      (a[0]? = b[0]? ∧ a[1]? = b[1]? ∧ a[2]? = b[2]?) := by
  simp [isEqualColor, CHANNEL_RED, CHANNEL_GREEN, CHANNEL_BLUE, and_assoc]

theorem isEqualColor_refl (a : List Nat) : isEqualColor a a = true := by
  simp [isEqualColor]

theorem getElem?_of_le_length (l : List Nat) (i : Nat) (h : i < l.length) :
    l[i]? = some (l.getD i 0) := by
  rw [List.getD_eq_getElem?_getD, List.getElem?_eq_getElem h]
  rfl

/-- Claim C7, counterexample: canvas 2x1 RGB [1,1,1, 2,2,2] contains only
X = [1,1,1] and background [2,2,2] ≠ X; with Y = [2,2,2] (equal to the
background), replaceColor(replaceColor(c,X,Y),Y,X) maps every pixel to
[1,1,1]: the background pixel is no longer color-equal to the original. -/
theorem replaceColor_roundtrip_fails :
    (replaceColor (replaceColor ⟨2, 1, false, [1, 1, 1, 2, 2, 2]⟩
        [1, 1, 1] [2, 2, 2]) [2, 2, 2] [1, 1, 1]).data
      = [1, 1, 1, 1, 1, 1] ∧
    isEqualColor
      (getColor (replaceColor (replaceColor ⟨2, 1, false,
        [1, 1, 1, 2, 2, 2]⟩ [1, 1, 1] [2, 2, 2]) [2, 2, 2] [1, 1, 1]) 1 0)
      (getColor ⟨2, 1, false, [1, 1, 1, 2, 2, 2]⟩ 1 0) = false := by
  constructor
  · decide
  · decide

/-- Claim C7 as amended: the round trip
replaceColor(replaceColor(c, X, Y), Y, X) is color-equal (R,G,B at every
pixel) to the original for every well-formed canvas containing only color X
and a background color Bg ≠ X, provided additionally that Y is not
color-equal to the background (the counterexample shows the claim fails
when Y equals the background). -/
theorem replaceColor_roundtrip (canvas : Canvas) (X Y Bg : List Nat)
    (hwf : canvas.wf) (hX : 3 ≤ X.length) (hY : 3 ≤ Y.length)
    (honly : ∀ x : Nat, x < canvas.width → ∀ y : Nat, y < canvas.height →
      isEqualColor (getColor canvas x y) X = true ∨
      isEqualColor (getColor canvas x y) Bg = true)
    (hBX : isEqualColor Bg X = false) (hBY : isEqualColor Bg Y = false)
    (x y : Nat) (hx : x < canvas.width) (hy : y < canvas.height) :
    isEqualColor (getColor (replaceColor (replaceColor canvas X Y) Y X)
      (x : Int) (y : Int)) (getColor canvas (x : Int) (y : Int)) = true := by
  have hwf1 := replaceColor_wf canvas X Y hwf
  have hx1 : x < (replaceColor canvas X Y).width := by
    rw [replaceColor_width]; exact hx
  have hy1 : y < (replaceColor canvas X Y).height := by
    rw [replaceColor_height]; exact hy
  have hA := replaceColor_getColor canvas X Y hwf x y hx hy
  have hB := replaceColor_getColor (replaceColor canvas X Y) Y X hwf1 x y
    hx1 hy1
  rcases honly x hx y hy with hcX | hcB
  · rw [hA, if_pos hcX] at hB
    have hg3 : ∀ i : Nat, i < 3 → (getColor canvas (x : Int)
        (y : Int))[i]? = X[i]? := by
      intro i hi
      rcases (isEqualColor_iff _ _).mp hcX with ⟨h0, h1, h2⟩
      interval_cases i <;> assumption
    have hcond2 : isEqualColor ([Y.getD CHANNEL_RED 0, Y.getD CHANNEL_GREEN 0,
        Y.getD CHANNEL_BLUE 0] ++ (if canvas.hasAlphaChannel then
          [canvas.data.getD ((y * canvas.width + x) * getChannelCount
            canvas.hasAlphaChannel + CHANNEL_ALPHA) 0] else [])) Y
        = true := by
      rw [isEqualColor_iff]
      refine ⟨?_, ?_, ?_⟩
      · simp only [List.cons_append, List.nil_append,
          List.getElem?_cons_zero]
        rw [getElem?_of_le_length Y 0 (by omega)]
        rfl
      · simp only [List.cons_append, List.nil_append,
          List.getElem?_cons_succ, List.getElem?_cons_zero]
        rw [getElem?_of_le_length Y 1 (by omega)]
        rfl
      · simp only [List.cons_append, List.nil_append,
          List.getElem?_cons_succ, List.getElem?_cons_zero]
        rw [getElem?_of_le_length Y 2 (by omega)]
        rfl
    rw [if_pos hcond2] at hB
    rw [hB, isEqualColor_iff]
    have hwidth : (replaceColor canvas X Y).width = canvas.width :=
      replaceColor_width canvas X Y
    refine ⟨?_, ?_, ?_⟩
    · rw [hg3 0 (by omega), getElem?_of_le_length X 0 (by omega)]
      simp only [List.cons_append, List.nil_append, List.getElem?_cons_zero]
      rfl
    · rw [hg3 1 (by omega), getElem?_of_le_length X 1 (by omega)]
      simp only [List.cons_append, List.nil_append,
        List.getElem?_cons_succ, List.getElem?_cons_zero]
      rfl
    · rw [hg3 2 (by omega), getElem?_of_le_length X 2 (by omega)]
      simp only [List.cons_append, List.nil_append,
        List.getElem?_cons_succ, List.getElem?_cons_zero]
      rfl
  · have hcXfalse : ¬ isEqualColor (getColor canvas (x : Int) (y : Int)) X
        = true := by
      intro hcontra
      rcases (isEqualColor_iff _ _).mp hcB with ⟨b0, b1, b2⟩
      rcases (isEqualColor_iff _ _).mp hcontra with ⟨x0, x1, x2⟩
      have : isEqualColor Bg X = true := by
        rw [isEqualColor_iff]
        exact ⟨b0 ▸ x0 ▸ rfl, b1 ▸ x1 ▸ rfl, b2 ▸ x2 ▸ rfl⟩
      rw [hBX] at this
      exact Bool.false_ne_true this
    rw [hA, if_neg hcXfalse] at hB
    have hcYfalse : ¬ isEqualColor (getColor canvas (x : Int) (y : Int)) Y
        = true := by
      intro hcontra
      rcases (isEqualColor_iff _ _).mp hcB with ⟨b0, b1, b2⟩
      rcases (isEqualColor_iff _ _).mp hcontra with ⟨y0, y1, y2⟩
      have : isEqualColor Bg Y = true := by
        rw [isEqualColor_iff]
        exact ⟨b0 ▸ y0 ▸ rfl, b1 ▸ y1 ▸ rfl, b2 ▸ y2 ▸ rfl⟩
      rw [hBY] at this
      exact Bool.false_ne_true this
    rw [if_neg hcYfalse] at hB
    rw [hB]
    exact isEqualColor_refl _

/-- Witness for C7's amended theorem: canvas 2x1 RGB [1,1,1, 2,2,2],
X = [1,1,1], Y = [9,9,9], background [2,2,2], pixel (1,0). -/
theorem replaceColor_roundtrip_witness :
    isEqualColor (getColor (replaceColor (replaceColor ⟨2, 1, false,
        [1, 1, 1, 2, 2, 2]⟩ [1, 1, 1] [9, 9, 9]) [9, 9, 9] [1, 1, 1])
        ((1 : Nat) : Int) ((0 : Nat) : Int))
      (getColor ⟨2, 1, false, [1, 1, 1, 2, 2, 2]⟩ ((1 : Nat) : Int)
        ((0 : Nat) : Int)) = true :=
  replaceColor_roundtrip ⟨2, 1, false, [1, 1, 1, 2, 2, 2]⟩ [1, 1, 1]
    [9, 9, 9] [2, 2, 2] rfl (by decide) (by decide) (by decide) (by decide)
    (by decide) 1 0 (by decide) (by decide)

theorem mem_intRange (i a b : Int) : i ∈ intRange a b ↔ a ≤ i ∧ i < b := by
  unfold intRange
  simp only [List.mem_map, List.mem_range]
  constructor
  · rintro ⟨k, hk, rfl⟩
    omega
  · rintro ⟨h1, h2⟩
    exact ⟨(i - a).toNat, by omega, by omega⟩

theorem nodup_intRange (a b : Int) : (intRange a b).Nodup := by
  unfold intRange
  exact List.Nodup.map (fun u v huv => by omega) (List.nodup_range _)

theorem mem_prodList (p : Int × Int) (as bs : List Int) :
    p ∈ prodList as bs ↔ p.1 ∈ as ∧ p.2 ∈ bs := by
  unfold prodList
  simp only [List.mem_flatMap, List.mem_map]
  constructor
  · rintro ⟨a, ha, b, hb, rfl⟩
    exact ⟨ha, hb⟩
  · rintro ⟨ha, hb⟩
    exact ⟨p.1, ha, p.2, hb, rfl⟩

theorem nodup_prodList (as bs : List Int) (ha : as.Nodup) (hb : bs.Nodup) :
    (prodList as bs).Nodup := by
  induction as with
  | nil => exact List.nodup_nil
  | cons a t ih =>
    rcases List.nodup_cons.mp ha with ⟨hat, htd⟩
    show ((bs.map (fun b => (a, b))) ++ prodList t bs).Nodup
    apply List.Nodup.append
    · exact List.Nodup.map (fun u v huv => by
        have h2 := congrArg Prod.snd huv
        simpa using h2) hb
    · exact ih htd
    · intro u hu hu2
      rcases List.mem_map.mp hu with ⟨b, hb2, rfl⟩
      exact hat ((mem_prodList (a, b) t bs).mp hu2).1

theorem foldl_prodList (f : List Nat → (Int × Int) → List Nat)
    (as bs : List Int) (d : List Nat) :
    (prodList as bs).foldl f d
      = as.foldl (fun acc a => bs.foldl (fun acc2 b => f acc2 (a, b)) acc)
        d := by
  induction as generalizing d with
  | nil => rfl
  | cons a t ih =>
    show ((bs.map (fun b => (a, b))) ++ prodList t bs).foldl f d = _
    rw [List.foldl_append, List.foldl_map, List.foldl_cons, ih]

theorem jsSet_toNat_add (d : List Nat) (i : Int) (m v : Nat) (h : 0 ≤ i) :
    jsSet d (i + (m : Nat)) v = jsSetN d (i.toNat + m) v := by
  unfold jsSet
  rw [if_neg (by omega)]
  have he : (i + (m : Nat)).toNat = i.toNat + m := by omega
  rw [he]

theorem coordinates2bytePosition_toNat (W : Nat) (a : Bool) (i j : Int)
    (hi : 0 ≤ i) (hj : 0 ≤ j) :
    (coordinates2bytePosition W a i j).toNat
      = (j.toNat * W + i.toNat) * getChannelCount a := by
  obtain ⟨ni, rfl⟩ := Int.eq_ofNat_of_zero_le hi
  obtain ⟨nj, rfl⟩ := Int.eq_ofNat_of_zero_le hj
  rw [coordinates2bytePosition_coe, Int.toNat_natCast, Int.toNat_natCast,
    Int.toNat_natCast]

theorem coordinates2bytePosition_nonneg (W : Nat) (a : Bool) (i j : Int)
    (hi : 0 ≤ i) (hj : 0 ≤ j) :
    0 ≤ coordinates2bytePosition W a i j := by
  unfold coordinates2bytePosition
  have h1 : (0 : Int) ≤ j * W + i := by positivity
  positivity

theorem drWrite_vals_length (canvas : Canvas) (col : List Nat)
    (q : Int × Int) :
    (drWrite canvas col q).vals.length
      = getChannelCount canvas.hasAlphaChannel := by
  unfold drWrite
  cases h : canvas.hasAlphaChannel <;>
    simp [h, getChannelCount, RGB, RGBA]

theorem drWrite_base (canvas : Canvas) (col : List Nat) (q : Int × Int) :
    (drWrite canvas col q).base
      = (coordinates2bytePosition canvas.width canvas.hasAlphaChannel q.1
          q.2).toNat := rfl

/-- One drawRect pixel visit equals the corresponding block write. -/
theorem drStep_eq (canvas : Canvas) (color : List Nat) (i j : Int)
    (acc : List Nat) (hi : 0 ≤ i) (hj : 0 ≤ j)
    (hlen : (coordinates2bytePosition canvas.width canvas.hasAlphaChannel i
        j).toNat + getChannelCount canvas.hasAlphaChannel ≤ acc.length) :
    (let bytePos := coordinates2bytePosition canvas.width
      canvas.hasAlphaChannel i j
     let acc3 := jsSet (jsSet (jsSet acc
       (bytePos + CHANNEL_RED) (color.getD CHANNEL_RED 0))
       (bytePos + CHANNEL_GREEN) (color.getD CHANNEL_GREEN 0))
       (bytePos + CHANNEL_BLUE) (color.getD CHANNEL_BLUE 0)
     if canvas.hasAlphaChannel then
       jsSet acc3 (bytePos + CHANNEL_ALPHA) ((color[CHANNEL_ALPHA]?).getD
         0xff)
     else acc3)
    = applyWrite acc (drWrite canvas color (i, j)) := by
  have hbp0 : 0 ≤ coordinates2bytePosition canvas.width
      canvas.hasAlphaChannel i j :=
    coordinates2bytePosition_nonneg canvas.width canvas.hasAlphaChannel i j
      hi hj
  show (if canvas.hasAlphaChannel then
      jsSet (jsSet (jsSet (jsSet acc
        (coordinates2bytePosition canvas.width canvas.hasAlphaChannel i j
          + CHANNEL_RED) (color.getD CHANNEL_RED 0))
        (coordinates2bytePosition canvas.width canvas.hasAlphaChannel i j
          + CHANNEL_GREEN) (color.getD CHANNEL_GREEN 0))
        (coordinates2bytePosition canvas.width canvas.hasAlphaChannel i j
          + CHANNEL_BLUE) (color.getD CHANNEL_BLUE 0))
        (coordinates2bytePosition canvas.width canvas.hasAlphaChannel i j
          + CHANNEL_ALPHA) ((color[CHANNEL_ALPHA]?).getD 0xff)
    else
      jsSet (jsSet (jsSet acc
        (coordinates2bytePosition canvas.width canvas.hasAlphaChannel i j
          + CHANNEL_RED) (color.getD CHANNEL_RED 0))
        (coordinates2bytePosition canvas.width canvas.hasAlphaChannel i j
          + CHANNEL_GREEN) (color.getD CHANNEL_GREEN 0))
        (coordinates2bytePosition canvas.width canvas.hasAlphaChannel i j
          + CHANNEL_BLUE) (color.getD CHANNEL_BLUE 0)) = _
  rw [jsSet_toNat_add acc _ CHANNEL_RED _ hbp0]
  rw [jsSet_toNat_add _ _ CHANNEL_GREEN _ hbp0]
  rw [jsSet_toNat_add _ _ CHANNEL_BLUE _ hbp0]
  rw [jsSet_toNat_add _ _ CHANNEL_ALPHA _ hbp0]
  set db := (coordinates2bytePosition canvas.width canvas.hasAlphaChannel i
    j).toNat with hdb
  by_cases hA : canvas.hasAlphaChannel = true
  · have hch : getChannelCount canvas.hasAlphaChannel = 4 := by
      rw [hA]; rfl
    rw [if_pos hA]
    unfold drWrite applyWrite
    rw [hA]
    simp only [if_true]
    simp only [CHANNEL_RED, CHANNEL_GREEN, CHANNEL_BLUE, CHANNEL_ALPHA,
      Nat.add_zero]
    have h0 : db < acc.length := by omega
    have h1 : db + 1 < (acc.set db (color.getD 0 0)).length := by
      rw [List.length_set]; omega
    have h2 : db + 2 < ((acc.set db (color.getD 0 0)).set (db + 1)
        (color.getD 1 0)).length := by
      rw [List.length_set, List.length_set]; omega
    have h3 : db + 3 < (((acc.set db (color.getD 0 0)).set (db + 1)
        (color.getD 1 0)).set (db + 2) (color.getD 2 0)).length := by
      rw [List.length_set, List.length_set, List.length_set]; omega
    rw [jsSetN_of_lt _ h0, jsSetN_of_lt _ h1, jsSetN_of_lt _ h2,
      jsSetN_of_lt _ h3]
    rw [hdb, hA]
    rfl
  · have hA2 : canvas.hasAlphaChannel = false := by
      cases hcc : canvas.hasAlphaChannel
      · rfl
      · exact absurd hcc hA
    have hch : getChannelCount canvas.hasAlphaChannel = 3 := by
      rw [hA2]; rfl
    rw [if_neg hA]
    unfold drWrite applyWrite
    rw [hA2]
    simp only [Bool.false_eq_true, if_false, List.append_nil]
    simp only [CHANNEL_RED, CHANNEL_GREEN, CHANNEL_BLUE, Nat.add_zero]
    have h0 : db < acc.length := by omega
    have h1 : db + 1 < (acc.set db (color.getD 0 0)).length := by
      rw [List.length_set]; omega
    have h2 : db + 2 < ((acc.set db (color.getD 0 0)).set (db + 1)
        (color.getD 1 0)).length := by
      rw [List.length_set, List.length_set]; omega
    rw [jsSetN_of_lt _ h0, jsSetN_of_lt _ h1, jsSetN_of_lt _ h2]
    rw [hdb, hA2]
    rfl

theorem drawRect_inner_foldl (canvas : Canvas) (color : List Nat) (i : Int) :
    ∀ (bs : List Int) (d : List Nat),
      (∀ j ∈ bs, 0 ≤ i ∧ 0 ≤ j ∧
        (coordinates2bytePosition canvas.width canvas.hasAlphaChannel i
          j).toNat + getChannelCount canvas.hasAlphaChannel ≤ d.length) →
      bs.foldl (fun acc2 j =>
        let bytePos := coordinates2bytePosition canvas.width
          canvas.hasAlphaChannel i j
        let acc3 := jsSet (jsSet (jsSet acc2
          (bytePos + CHANNEL_RED) (color.getD CHANNEL_RED 0))
          (bytePos + CHANNEL_GREEN) (color.getD CHANNEL_GREEN 0))
          (bytePos + CHANNEL_BLUE) (color.getD CHANNEL_BLUE 0)
        if canvas.hasAlphaChannel then
          jsSet acc3 (bytePos + CHANNEL_ALPHA)
            ((color[CHANNEL_ALPHA]?).getD 0xff)
        else acc3) d
      = (bs.map (fun j => drWrite canvas color (i, j))).foldl applyWrite
        d := by
  intro bs
  induction bs with
  | nil => intro d hd; rfl
  | cons j t ih =>
    intro d hd
    rcases hd j (List.mem_cons_self j t) with ⟨hi, hj, hb⟩
    simp only [List.foldl_cons, List.map_cons]
    rw [drStep_eq canvas color i j d hi hj hb]
    apply ih
    intro u hu
    rcases hd u (List.mem_cons_of_mem j hu) with ⟨h1, h2, h3⟩
    rw [applyWrite_length]
    exact ⟨h1, h2, h3⟩

theorem drawRect_outer_foldl (canvas : Canvas) (color : List Nat) :
    ∀ (as bs : List Int) (d : List Nat),
      (∀ p ∈ prodList as bs, 0 ≤ p.1 ∧ 0 ≤ p.2 ∧
        (coordinates2bytePosition canvas.width canvas.hasAlphaChannel p.1
          p.2).toNat + getChannelCount canvas.hasAlphaChannel ≤ d.length) →
      as.foldl (fun acc i =>
        bs.foldl (fun acc2 j =>
          let bytePos := coordinates2bytePosition canvas.width
            canvas.hasAlphaChannel i j
          let acc3 := jsSet (jsSet (jsSet acc2
            (bytePos + CHANNEL_RED) (color.getD CHANNEL_RED 0))
            (bytePos + CHANNEL_GREEN) (color.getD CHANNEL_GREEN 0))
            (bytePos + CHANNEL_BLUE) (color.getD CHANNEL_BLUE 0)
          if canvas.hasAlphaChannel then
            jsSet acc3 (bytePos + CHANNEL_ALPHA)
              ((color[CHANNEL_ALPHA]?).getD 0xff)
          else acc3) acc) d
      = ((prodList as bs).map (drWrite canvas color)).foldl applyWrite
        d := by
  intro as
  induction as with
  | nil => intro bs d hd; rfl
  | cons a t ih =>
    intro bs d hd
    simp only [List.foldl_cons]
    have hinner := drawRect_inner_foldl canvas color a bs d (fun j hj => by
      have hm : ((a, j) : Int × Int) ∈ prodList (a :: t) bs :=
        (mem_prodList (a, j) (a :: t) bs).mpr
          ⟨List.mem_cons_self a t, hj⟩
      exact hd (a, j) hm)
    rw [hinner]
    have houter := ih bs ((bs.map (fun j => drWrite canvas color
        (a, j))).foldl applyWrite d) (fun p hp => by
      have hm : p ∈ prodList (a :: t) bs := by
        rw [mem_prodList] at hp ⊢
        exact ⟨List.mem_cons_of_mem a hp.1, hp.2⟩
      rcases hd p hm with ⟨h1, h2, h3⟩
      rw [foldl_applyWrite_length]
      exact ⟨h1, h2, h3⟩)
    rw [houter]
    show _ = ((bs.map (fun b => (a, b)) ++ prodList t bs).map
      (drWrite canvas color)).foldl applyWrite d
    rw [List.map_append, List.foldl_append, List.map_map]
    rfl

theorem rect_mem_facts (canvas : Canvas) (x y rw rh : Int) (hwf : canvas.wf)
    (hx0 : 0 ≤ x) (hy0 : 0 ≤ y) (hxw : x + rw ≤ canvas.width)
    (hyh : y + rh ≤ canvas.height) (p : Int × Int)
    (hp : p ∈ prodList (intRange x (x + rw)) (intRange y (y + rh))) :
    0 ≤ p.1 ∧ 0 ≤ p.2 ∧
      (coordinates2bytePosition canvas.width canvas.hasAlphaChannel p.1
        p.2).toNat + getChannelCount canvas.hasAlphaChannel
        ≤ canvas.data.length := by
  rw [mem_prodList] at hp
  rw [mem_intRange] at hp
  rcases hp with ⟨⟨hpx1, hpx2⟩, hpy⟩
  rw [mem_intRange] at hpy
  rcases hpy with ⟨hpy1, hpy2⟩
  have h1 : 0 ≤ p.1 := by omega
  have h2 : 0 ≤ p.2 := by omega
  refine ⟨h1, h2, ?_⟩
  rw [coordinates2bytePosition_toNat canvas.width canvas.hasAlphaChannel
    p.1 p.2 h1 h2]
  have hxlt : p.1.toNat < canvas.width := by omega
  have hylt : p.2.toNat < canvas.height := by omega
  have hq := pixel_index_lt canvas.width canvas.height p.1.toNat p.2.toNat
    hxlt hylt
  have hm : (p.2.toNat * canvas.width + p.1.toNat + 1) *
      getChannelCount canvas.hasAlphaChannel
      ≤ canvas.width * canvas.height * getChannelCount
        canvas.hasAlphaChannel := Nat.mul_le_mul_right _ (by omega)
  rw [Nat.add_mul, Nat.one_mul] at hm
  rw [hwf]
  omega

theorem drawRect_data_eq (canvas : Canvas) (x y rw rh : Int)
    (color : List Nat) (hwf : canvas.wf) (hx0 : 0 ≤ x) (hy0 : 0 ≤ y)
    (hxw : x + rw ≤ canvas.width) (hyh : y + rh ≤ canvas.height) :
    (drawRect canvas x y rw rh color).data
      = ((prodList (intRange x (x + rw)) (intRange y (y + rh))).map
          (drWrite canvas color)).foldl applyWrite canvas.data :=
  drawRect_outer_foldl canvas color (intRange x (x + rw))
    (intRange y (y + rh)) canvas.data
    (rect_mem_facts canvas x y rw rh hwf hx0 hy0 hxw hyh)

theorem block_unique_full (ch q q0 r : Nat) (h1 : q * ch ≤ q0 * ch + r)
    (h2 : q0 * ch + r < q * ch + ch) (hr : r < ch) : q = q0 := by
  have ha : q * ch < (q0 + 1) * ch := by
    rw [Nat.add_mul, Nat.one_mul]
    omega
  have hb : q0 * ch < (q + 1) * ch := by
    rw [Nat.add_mul, Nat.one_mul]
    omega
  have ha2 := Nat.lt_of_mul_lt_mul_right ha
  have hb2 := Nat.lt_of_mul_lt_mul_right hb
  omega

theorem rowcol_unique (W i j p q : Nat) (hi : i < W) (hp : p < W)
    (h : j * W + i = q * W + p) : i = p ∧ j = q := by
  have hW : 0 < W := by omega
  have h1 : (j * W + i) % W = i := by
    rw [Nat.mul_comm j W, Nat.mul_add_mod, Nat.mod_eq_of_lt hi]
  have h2 : (q * W + p) % W = p := by
    rw [Nat.mul_comm q W, Nat.mul_add_mod, Nat.mod_eq_of_lt hp]
  have h3 : (j * W + i) / W = j := by
    rw [Nat.mul_comm j W, Nat.mul_add_div hW, Nat.div_eq_of_lt hi,
      Nat.add_zero]
  have h4 : (q * W + p) / W = q := by
    rw [Nat.mul_comm q W, Nat.mul_add_div hW, Nat.div_eq_of_lt hp,
      Nat.add_zero]
  constructor
  · rw [← h1, ← h2, h]
  · rw [← h3, ← h4, h]

/-- Byte-level characterization of drawRect for a rectangle contained in
the canvas: byte r of pixel (px, py) becomes the fill color's channel r
(alpha defaulting to 0xff) when (px, py) lies in the rectangle; every
other byte keeps its value. -/
theorem drawRect_data_getElem? (canvas : Canvas) (x y rw rh : Int)
    (color : List Nat) (hwf : canvas.wf) (hx0 : 0 ≤ x) (hy0 : 0 ≤ y)
    (hxw : x + rw ≤ canvas.width) (hyh : y + rh ≤ canvas.height)
    (px py r : Nat) (hpx : px < canvas.width) (hpy : py < canvas.height)
    (hr : r < getChannelCount canvas.hasAlphaChannel) :
    (drawRect canvas x y rw rh color).data[(py * canvas.width + px) *
        getChannelCount canvas.hasAlphaChannel + r]? =
      if x ≤ (px : Int) ∧ (px : Int) < x + rw ∧ y ≤ (py : Int) ∧
          (py : Int) < y + rh then
        ([color.getD CHANNEL_RED 0, color.getD CHANNEL_GREEN 0,
          color.getD CHANNEL_BLUE 0] ++
          (if canvas.hasAlphaChannel then [(color[CHANNEL_ALPHA]?).getD 0xff]
           else []))[r]?
      else canvas.data[(py * canvas.width + px) * getChannelCount
        canvas.hasAlphaChannel + r]? := by
  have hch3 := getChannelCount_ge3 canvas.hasAlphaChannel
  rw [drawRect_data_eq canvas x y rw rh color hwf hx0 hy0 hxw hyh]
  rw [foldl_applyWrite_getElem? _ canvas.data _
    (fun w hw => by
      rcases List.mem_map.mp hw with ⟨p, hp, rfl⟩
      rcases rect_mem_facts canvas x y rw rh hwf hx0 hy0 hxw hyh p hp
        with ⟨h1, h2, h3⟩
      rw [drWrite_base, drWrite_vals_length]
      exact h3)
    (by
      rw [List.pairwise_map]
      have hnd := nodup_prodList (intRange x (x + rw))
        (intRange y (y + rh)) (nodup_intRange x (x + rw))
        (nodup_intRange y (y + rh))
      apply List.Pairwise.imp_of_mem ?_ hnd
      intro p p' hp hp' hne
      rcases rect_mem_facts canvas x y rw rh hwf hx0 hy0 hxw hyh p hp
        with ⟨a1, a2, a3⟩
      rcases rect_mem_facts canvas x y rw rh hwf hx0 hy0 hxw hyh p' hp'
        with ⟨b1, b2, b3⟩
      rw [mem_prodList, mem_intRange, mem_intRange] at hp hp'
      unfold disjW
      rw [drWrite_base, drWrite_base, drWrite_vals_length,
        drWrite_vals_length,
        coordinates2bytePosition_toNat _ _ _ _ a1 a2,
        coordinates2bytePosition_toNat _ _ _ _ b1 b2]
      have hqne : p.2.toNat * canvas.width + p.1.toNat ≠
          p'.2.toNat * canvas.width + p'.1.toNat := by
        intro hcontra
        rcases rowcol_unique canvas.width p.1.toNat p.2.toNat p'.1.toNat
          p'.2.toNat (by omega) (by omega) hcontra with ⟨e1, e2⟩
        apply hne
        have hx1 : p.1 = p'.1 := by omega
        have hy1 : p.2 = p'.2 := by omega
        exact Prod.ext hx1 hy1
      rcases Nat.lt_or_ge (p.2.toNat * canvas.width + p.1.toNat)
        (p'.2.toNat * canvas.width + p'.1.toNat) with hlt | hge
      · left
        have := Nat.mul_le_mul_right
          (getChannelCount canvas.hasAlphaChannel)
          (by omega : p.2.toNat * canvas.width + p.1.toNat + 1 ≤
            p'.2.toNat * canvas.width + p'.1.toNat)
        rw [Nat.add_mul, Nat.one_mul] at this
        omega
      · right
        have hlt2 : p'.2.toNat * canvas.width + p'.1.toNat <
            p.2.toNat * canvas.width + p.1.toNat := by omega
        have := Nat.mul_le_mul_right
          (getChannelCount canvas.hasAlphaChannel)
          (by omega : p'.2.toNat * canvas.width + p'.1.toNat + 1 ≤
            p.2.toNat * canvas.width + p.1.toNat)
        rw [Nat.add_mul, Nat.one_mul] at this
        omega)]
  rw [find?_map_unique (prodList (intRange x (x + rw))
      (intRange y (y + rh))) _ (drWrite canvas color)
      (((px : Int), (py : Int)))
      (fun p hp htp => by
        rcases rect_mem_facts canvas x y rw rh hwf hx0 hy0 hxw hyh p hp
          with ⟨a1, a2, a3⟩
        simp only [touches, Bool.and_eq_true, decide_eq_true_eq,
          drWrite_base, drWrite_vals_length,
          coordinates2bytePosition_toNat _ _ _ _ a1 a2] at htp
        have hq := block_unique_full
          (getChannelCount canvas.hasAlphaChannel)
          (p.2.toNat * canvas.width + p.1.toNat)
          (py * canvas.width + px) r htp.1 (by omega) hr
        rw [mem_prodList, mem_intRange, mem_intRange] at hp
        rcases rowcol_unique canvas.width p.1.toNat p.2.toNat px py
          (by omega) hpx hq with ⟨e1, e2⟩
        have hx1 : p.1 = (px : Int) := by omega
        have hy1 : p.2 = (py : Int) := by omega
        exact Prod.ext hx1 hy1)]
  have hmem : (((px : Int), (py : Int)) : Int × Int) ∈ prodList
      (intRange x (x + rw)) (intRange y (y + rh)) ↔
      (x ≤ (px : Int) ∧ (px : Int) < x + rw ∧ y ≤ (py : Int) ∧
        (py : Int) < y + rh) := by
    rw [mem_prodList, mem_intRange, mem_intRange]
    constructor
    · rintro ⟨⟨u1, u2⟩, u3, u4⟩
      exact ⟨u1, u2, u3, u4⟩
    · rintro ⟨u1, u2, u3, u4⟩
      exact ⟨⟨u1, u2⟩, u3, u4⟩
  have htch : touches (drWrite canvas color (((px : Int), (py : Int))))
      ((py * canvas.width + px) * getChannelCount canvas.hasAlphaChannel
        + r) = true := by
    simp only [touches, Bool.and_eq_true, decide_eq_true_eq, drWrite_base,
      drWrite_vals_length]
    rw [coordinates2bytePosition_toNat _ _ _ _ (Int.natCast_nonneg px)
      (Int.natCast_nonneg py), Int.toNat_natCast, Int.toNat_natCast]
    omega
  by_cases hrect : x ≤ (px : Int) ∧ (px : Int) < x + rw ∧ y ≤ (py : Int) ∧
      (py : Int) < y + rh
  · rw [if_pos ⟨hmem.mpr hrect, htch⟩]
    rw [if_pos hrect]
    show (drWrite canvas color (((px : Int), (py : Int)))).vals[
      (py * canvas.width + px) * getChannelCount canvas.hasAlphaChannel + r
        - (drWrite canvas color (((px : Int), (py : Int)))).base]? = _
    rw [drWrite_base, coordinates2bytePosition_toNat _ _ _ _
      (Int.natCast_nonneg px) (Int.natCast_nonneg py), Int.toNat_natCast,
      Int.toNat_natCast]
    have hsub : (py * canvas.width + px) * getChannelCount
        canvas.hasAlphaChannel + r - (py * canvas.width + px) *
        getChannelCount canvas.hasAlphaChannel = r := by omega
    rw [hsub]
    rfl
  · rw [if_neg (fun hcontra => hrect (hmem.mp hcontra.1)), if_neg hrect]

theorem drawRect_width (c : Canvas) (x y rw rh : Int) (col : List Nat) :
    (drawRect c x y rw rh col).width = c.width := rfl

theorem drawRect_height (c : Canvas) (x y rw rh : Int) (col : List Nat) :
    (drawRect c x y rw rh col).height = c.height := rfl

theorem drawRect_hasAlphaChannel (c : Canvas) (x y rw rh : Int)
    (col : List Nat) :
    (drawRect c x y rw rh col).hasAlphaChannel = c.hasAlphaChannel := rfl

/-- Claim C2 as amended (in-bounds part): for a rectangle contained in the
canvas, drawRect sets R,G,B (and, on an alpha canvas, alpha — color[3] when
present, even 0, else 0xff) of exactly the rectangle pixels; every canvas
pixel outside the rectangle keeps its pre-draw color.  (The counterexample
shows the claim's out-of-bounds part is false: rectangle pixels outside the
canvas are written without any bounds check, extending the buffer.) -/
theorem drawRect_getColor (canvas : Canvas) (x y rw rh : Int)
    (color : List Nat) (hwf : canvas.wf) (hx0 : 0 ≤ x) (hy0 : 0 ≤ y)
    (hxw : x + rw ≤ canvas.width) (hyh : y + rh ≤ canvas.height)
    (px py : Nat) (hpx : px < canvas.width) (hpy : py < canvas.height) :
    getColor (drawRect canvas x y rw rh color) (px : Int) (py : Int) =
      if x ≤ (px : Int) ∧ (px : Int) < x + rw ∧ y ≤ (py : Int) ∧
          (py : Int) < y + rh then
        [color.getD CHANNEL_RED 0, color.getD CHANNEL_GREEN 0,
          color.getD CHANNEL_BLUE 0] ++
          (if canvas.hasAlphaChannel then [(color[CHANNEL_ALPHA]?).getD 0xff]
           else [])
      else getColor canvas (px : Int) (py : Int) := by
  have hch3 := getChannelCount_ge3 canvas.hasAlphaChannel
  rw [getColor_coe (drawRect canvas x y rw rh color) px py,
    getColor_coe canvas px py]
  simp only [drawRect_width, drawRect_hasAlphaChannel]
  simp only [List.getD_eq_getElem?_getD]
  rw [drawRect_data_getElem? canvas x y rw rh color hwf hx0 hy0 hxw hyh
      px py CHANNEL_RED hpx hpy (by unfold CHANNEL_RED; omega),
    drawRect_data_getElem? canvas x y rw rh color hwf hx0 hy0 hxw hyh
      px py CHANNEL_GREEN hpx hpy (by unfold CHANNEL_GREEN; omega),
    drawRect_data_getElem? canvas x y rw rh color hwf hx0 hy0 hxw hyh
      px py CHANNEL_BLUE hpx hpy (by unfold CHANNEL_BLUE; omega)]
  by_cases hA : canvas.hasAlphaChannel = true
  · have hch4 : CHANNEL_ALPHA < getChannelCount canvas.hasAlphaChannel := by
      rw [hA]
      decide
    rw [drawRect_data_getElem? canvas x y rw rh color hwf hx0 hy0 hxw hyh
      px py CHANNEL_ALPHA hpx hpy hch4]
    by_cases hrect : x ≤ (px : Int) ∧ (px : Int) < x + rw ∧
        y ≤ (py : Int) ∧ (py : Int) < y + rh
    · simp [hrect, hA, CHANNEL_RED, CHANNEL_GREEN, CHANNEL_BLUE,
        CHANNEL_ALPHA]
    · simp [hrect, hA, CHANNEL_RED, CHANNEL_GREEN, CHANNEL_BLUE,
        CHANNEL_ALPHA]
  · have hA2 : canvas.hasAlphaChannel = false := by
      cases hcc : canvas.hasAlphaChannel
      · rfl
      · exact absurd hcc hA
    by_cases hrect : x ≤ (px : Int) ∧ (px : Int) < x + rw ∧
        y ≤ (py : Int) ∧ (py : Int) < y + rh
    · simp [hrect, hA2, CHANNEL_RED, CHANNEL_GREEN, CHANNEL_BLUE]
    · simp [hrect, hA2, CHANNEL_RED, CHANNEL_GREEN, CHANNEL_BLUE]

/-- Claim C2, counterexample: on a 1x1 RGB canvas [1,2,3], a 1x2 rectangle
reaches the out-of-bounds pixel (0,1); the claim says it is skipped and
every other byte keeps its value, but the code writes it at computed byte
offset 3, extending the 3-byte buffer to [7,8,9,7,8,9]. -/
theorem drawRect_out_of_bounds_written :
    (drawRect ⟨1, 1, false, [1, 2, 3]⟩ 0 0 1 2 [7, 8, 9]).data
        = [7, 8, 9, 7, 8, 9] ∧
      (drawRect ⟨1, 1, false, [1, 2, 3]⟩ 0 0 1 2 [7, 8, 9]).data.length
        ≠ ([1, 2, 3] : List Nat).length := by
  constructor
  · decide
  · decide

/-- Witness for C2's amended theorem: 2x1 RGB canvas [1,1,1, 2,2,2], a 1x1
rectangle at (1,0) filled with [7,8,9]; pixel (1,0) reads back [7,8,9]. -/
theorem drawRect_getColor_witness :
    getColor (drawRect ⟨2, 1, false, [1, 1, 1, 2, 2, 2]⟩ 1 0 1 1 [7, 8, 9])
      ((1 : Nat) : Int) ((0 : Nat) : Int) = [7, 8, 9] := by
  have h := drawRect_getColor ⟨2, 1, false, [1, 1, 1, 2, 2, 2]⟩ 1 0 1 1
    [7, 8, 9] rfl (by decide) (by decide) (by decide) (by decide) 1 0
    (by decide) (by decide)
  rw [h]
  decide

theorem readBuf_alloc (h : Heap) (b : List Nat) (r : Nat)
    (hr : r < h.bufs.length) :
    readBuf (allocBuf h b).1 r = readBuf h r := by
  unfold readBuf allocBuf
  simp only [List.getD_eq_getElem?_getD]
  rw [List.getElem?_append_left hr]

theorem readBuf_writeBuf_ne (h : Heap) (r r' : Nat) (b : List Nat)
    (hne : r' ≠ r) : readBuf (writeBuf h r' b) r = readBuf h r := by
  unfold readBuf writeBuf
  simp only [List.getD_eq_getElem?_getD]
  rw [List.getElem?_set_ne hne]

theorem cloneCanvasH_dataRef (h : Heap) (c : CanvasRef) :
    (cloneCanvasH h c).2.dataRef = h.bufs.length := rfl

/-- Claim C3: every operation leaves its input canvas entirely unchanged,
and cloneCanvas returns a canvas with identical data contents in a distinct
backing buffer: in the heap model, (1) the clone's buffer reference is
fresh (different from the original's), (2) the clone's contents equal the
original's, (3-5) width, height and alpha flag are preserved, (6) cloning
does not disturb the original's buffer, (7) mutating the clone's buffer
afterwards (any contents b) leaves the original's buffer unchanged,
(8-12) drawPixel, drawRect, drawCanvas (both its destination and its
source), and replaceColor leave the buffer of every input canvas
unchanged, and (13) getColor does not change the heap at all. -/
theorem operations_leave_input_unchanged (h : Heap) (c src : CanvasRef)
    (x y ox oy rw rh : Int) (col A B b : List Nat)
    (hc : c.dataRef < h.bufs.length) (hsrc : src.dataRef < h.bufs.length) :
    (cloneCanvasH h c).2.dataRef ≠ c.dataRef ∧
    readBuf (cloneCanvasH h c).1 (cloneCanvasH h c).2.dataRef
      = readBuf h c.dataRef ∧
    (cloneCanvasH h c).2.width = c.width ∧
    (cloneCanvasH h c).2.height = c.height ∧
    (cloneCanvasH h c).2.hasAlphaChannel = c.hasAlphaChannel ∧
    readBuf (cloneCanvasH h c).1 c.dataRef = readBuf h c.dataRef ∧
    readBuf (writeBuf (cloneCanvasH h c).1 (cloneCanvasH h c).2.dataRef b)
      c.dataRef = readBuf h c.dataRef ∧
    readBuf (drawPixelH h c x y col).1 c.dataRef = readBuf h c.dataRef ∧
    readBuf (drawRectH h c x y rw rh col).1 c.dataRef
      = readBuf h c.dataRef ∧
    readBuf (drawCanvasH h c src ox oy).1 c.dataRef
      = readBuf h c.dataRef ∧
    readBuf (drawCanvasH h c src ox oy).1 src.dataRef
      = readBuf h src.dataRef ∧
    readBuf (replaceColorH h c A B).1 c.dataRef = readBuf h c.dataRef ∧
    (getColorH h c x y).1 = h := by
  have hfresh : (cloneCanvasH h c).2.dataRef = h.bufs.length := rfl
  have hnec : (cloneCanvasH h c).2.dataRef ≠ c.dataRef := by
    rw [hfresh]
    omega
  have hnes : (cloneCanvasH h c).2.dataRef ≠ src.dataRef := by
    rw [hfresh]
    omega
  have hclone : readBuf (cloneCanvasH h c).1 c.dataRef
      = readBuf h c.dataRef := readBuf_alloc h _ c.dataRef hc
  have hclonesrc : readBuf (cloneCanvasH h c).1 src.dataRef
      = readBuf h src.dataRef := readBuf_alloc h _ src.dataRef hsrc
  have hcontents : readBuf (cloneCanvasH h c).1 (cloneCanvasH h c).2.dataRef
      = readBuf h c.dataRef := by
    show readBuf (allocBuf h (readBuf h c.dataRef)).1
      (cloneCanvasH h c).2.dataRef = readBuf h c.dataRef
    rw [hfresh]
    unfold readBuf allocBuf
    simp only [List.getD_eq_getElem?_getD]
    rw [List.getElem?_append_right (Nat.le_refl _)]
    simp
  have hwrite : ∀ bb : List Nat,
      readBuf (writeBuf (cloneCanvasH h c).1 (cloneCanvasH h c).2.dataRef
        bb) c.dataRef = readBuf h c.dataRef := fun bb => by
    rw [readBuf_writeBuf_ne _ _ _ _ hnec, hclone]
  have hwritesrc : ∀ bb : List Nat,
      readBuf (writeBuf (cloneCanvasH h c).1 (cloneCanvasH h c).2.dataRef
        bb) src.dataRef = readBuf h src.dataRef := fun bb => by
    rw [readBuf_writeBuf_ne _ _ _ _ hnes, hclonesrc]
  exact ⟨hnec, hcontents, rfl, rfl, rfl, hclone, hwrite b, hwrite _,
    hwrite _, hwrite _, hwritesrc _, hwrite _, rfl⟩

/-- Witness for C3: a two-buffer heap, the canvas referencing buffer 0. -/
theorem operations_leave_input_unchanged_witness :
    readBuf (drawPixelH ⟨[[1, 2, 3], [4, 5, 6]]⟩ ⟨1, 1, false, 0⟩ 0 0
      [7, 8, 9]).1 0 = [1, 2, 3] ∧
    (cloneCanvasH ⟨[[1, 2, 3], [4, 5, 6]]⟩ ⟨1, 1, false, 0⟩).2.dataRef
      ≠ 0 := by
  have hall := operations_leave_input_unchanged ⟨[[1, 2, 3], [4, 5, 6]]⟩
    ⟨1, 1, false, 0⟩ ⟨1, 1, false, 1⟩ 0 0 0 0 1 1 [7, 8, 9] [1, 2, 3]
    [4, 5, 6] [9, 9, 9] (by decide) (by decide)
  exact ⟨hall.2.2.2.2.2.2.2.1, hall.1⟩
